import Mathlib

/-!
# Genetic algorithm over IEEE-754 bit patterns (`F_mininization/main.cpp`)

A shallow embedding of the program's evolutionary core.

* A genome (`float`) is represented by its 32-bit pattern, a `Nat` below `2 ^ 32`;
  `reinterpret_cast<uint&>` and `reinterpret_cast<float&>` are then the identity.
* `uint` arithmetic is `Nat` arithmetic reduced modulo `2 ^ 32`.
* The global `std::mt19937` is an explicit stream of draws threaded through every
  function that consults it, in the order of the source.
* The numeric view of a genome is its exact IEEE-754 value. Float arithmetic follows the
  IEEE rules for infinities and NaN; the rounding of finite results and the outcome of an
  unrepresentable `float` to `int` conversion are what the platform makes them, and are
  parameters (`FloatEnv`): `ieeeEnv` is the binary32 and binary64 arithmetic of an x86-64
  build, `exactEnv` the arithmetic without rounding.
-/

namespace GeneticAlgorithm

/-! ## Constants and machine words -/

/-- Source: `const uint BYTE_SIZE = 8`. -/
def BYTE_SIZE : Nat := 8

/-- Source: `sizeof(float) * BYTE_SIZE`, with `sizeof(float) = 4`. -/
def FLOAT_SIZE : Nat := 4 * BYTE_SIZE

/-- Source: `sizeof(uint) * BYTE_SIZE`, with `uint = uint32_t`. -/
def UINT_SIZE : Nat := 4 * BYTE_SIZE

/-- Source: `const uint POPULATION_SIZE = 20`. -/
def POPULATION_SIZE : Nat := 20

/-- Number of values of the `uint` type. -/
def UINT_RANGE : Nat := 2 ^ 32

/-- Subtraction of two `uint` values, wrapping modulo `2 ^ 32`. -/
def usub (a b : Nat) : Nat := (a + UINT_RANGE - b % UINT_RANGE) % UINT_RANGE

/-- Left shift of a `uint` by `s` places, the bits shifted out being lost
(a shift by 32 or more is undefined in the source language and never requested). -/
def ushl (x s : Nat) : Nat := (x <<< s) % UINT_RANGE

/-- Bitwise complement `~x` of a `uint`. -/
def unot (x : Nat) : Nat := UINT_RANGE - 1 - x % UINT_RANGE

/-- Value of a mathematical integer stored in a 32-bit two's complement `int`. -/
def toInt32 (n : Int) : Int := (n + 2 ^ 31) % 2 ^ 32 - 2 ^ 31

/-- Conversion of an `int` to `uint` (reduction modulo `2 ^ 32`). -/
def intToUInt (n : Int) : Nat := (n % 2 ^ 32).toNat

/-! ## The random source -/

/-- One output of the generator: `u` is what an integer distribution makes of it,
`r` what `uniform_real_distribution<float>(0, 1)` makes of it. -/
structure Draw where
  u : Nat
  r : ℚ

/-- The generator `mt`: the stream of its future outputs. -/
abbrev Rng := Nat → Draw

/-- The generator after one output has been consumed. -/
def Rng.advance (rng : Rng) : Rng := fun n => rng (n + 1)

/-- Source: `randomUIntDist(from, to)`; a value of `[lo, hi]` (for `lo ≤ hi`). -/
def randomUIntDist (lo hi : Nat) (rng : Rng) : Nat × Rng :=
  (lo + (rng 0).u % (hi - lo + 1), rng.advance)

/-- Source: `randomFloatDist(from, to)`. -/
def randomFloatDist (lo hi : ℚ) (rng : Rng) : ℚ × Rng :=
  (lo + (hi - lo) * (rng 0).r, rng.advance)

/-- The generator whose every output is the same draw. -/
def constRng (u : Nat) (r : ℚ) : Rng := fun _ => { u := u, r := r }

/-- The generator whose every draw is `(u, r)` except the draw of index `i`, whose real
number is `r1`. -/
def spikeRng (u : Nat) (r : ℚ) (i : Nat) (r1 : ℚ) : Rng :=
  fun n => if n = i then { u := u, r := r1 } else { u := u, r := r }

/-! ## Genetic operators -/

/-- Source: `generateCrossMask`. The loop `for (uint i = 0; i < breakPoint; ++i)`
xors bit `UINT_SIZE - i - 1` into the mask. -/
def generateCrossMask (breakPoint : Nat) : Nat :=
  (List.range breakPoint).foldl
    (fun crossMask i => crossMask ^^^ ushl 1 (usub (usub UINT_SIZE i) 1)) 0

/-- Body of `cross` once the breakpoint is drawn. -/
def crossAt (breakPoint : Nat) (pair : Nat × Nat) : Nat × Nat :=
  let parentA := pair.1
  let parentB := pair.2
  let crossMask := generateCrossMask breakPoint
  let childA := (parentA &&& crossMask) ||| (parentB &&& unot crossMask)
  let childB := (parentB &&& crossMask) ||| (parentA &&& unot crossMask)
  (childA, childB)

/-- Source: `cross`. -/
def cross (pair : Nat × Nat) (rng : Rng) : (Nat × Nat) × Rng :=
  let (breakPoint, rng1) := randomUIntDist 0 (FLOAT_SIZE - 1) rng
  (crossAt breakPoint pair, rng1)

/-- Body of `mutate` once the bit index is drawn: `parent ^ (1 << (UINT_SIZE - randomBit - 1))`.
The literal `1` is an `int`, so the shift is an `int` that is converted to `uint`
for the exclusive or. -/
def mutateAt (randomBit : Nat) (parent : Nat) : Nat :=
  parent ^^^ intToUInt (toInt32 (1 * 2 ^ usub (usub UINT_SIZE randomBit) 1))

/-- Source: `mutate`. -/
def mutate (parentChromosome : Nat) (rng : Rng) : Nat × Rng :=
  let (randomBit, rng1) := randomUIntDist 0 (FLOAT_SIZE - 1) rng
  (mutateAt randomBit parentChromosome, rng1)

/-- Number of bit positions of a 32-bit word in which `x` and `y` differ. -/
def hammingDistance (x y : Nat) : Nat :=
  ((List.range 32).filter (fun i => x.testBit i != y.testBit i)).length

/-- Number of set bits of a 32-bit word. -/
def popCount (x : Nat) : Nat :=
  ((List.range 32).filter (fun i => x.testBit i)).length

/-! ## The numeric view of a genome -/

/-- A value of type `float` or `double`: a finite number, an infinity, or a NaN.
Finite values are exact rationals (the two zeros are not distinguished). -/
inductive FloatVal where
  | fin (q : ℚ)
  | pinf
  | ninf
  | nan
  deriving DecidableEq

namespace FloatVal

/-- Unary minus. -/
def neg : FloatVal → FloatVal
  | fin q => fin (-q)
  | pinf => ninf
  | ninf => pinf
  | nan => nan

/-- Addition, exact on finite operands. -/
def add : FloatVal → FloatVal → FloatVal
  | fin a, fin b => fin (a + b)
  | fin _, pinf => pinf
  | fin _, ninf => ninf
  | pinf, fin _ => pinf
  | pinf, pinf => pinf
  | ninf, fin _ => ninf
  | ninf, ninf => ninf
  | _, _ => nan

/-- Subtraction, exact on finite operands. -/
def sub (a b : FloatVal) : FloatVal := add a (neg b)

/-- The comparison `a > 0` (false on NaN). -/
def gtZero : FloatVal → Bool
  | fin q => decide (0 < q)
  | pinf => true
  | _ => false

/-- The comparison `a <= b` (false when either side is NaN). -/
def le : FloatVal → FloatVal → Bool
  | fin a, fin b => decide (a ≤ b)
  | fin _, pinf => true
  | ninf, fin _ => true
  | ninf, ninf => true
  | ninf, pinf => true
  | pinf, pinf => true
  | _, _ => false

/-- Division, exact on finite operands. A zero divisor counts as the positive zero,
the only zero an `int` converts to. -/
def div : FloatVal → FloatVal → FloatVal
  | fin a, fin b =>
      if b = 0 then (if a = 0 then nan else if 0 < a then pinf else ninf)
      else fin (a / b)
  | fin _, pinf => fin 0
  | fin _, ninf => fin 0
  | pinf, fin b => if b < 0 then ninf else pinf
  | ninf, fin b => if b < 0 then pinf else ninf
  | _, _ => nan

/-- A rounding applied to the exact result of an operation: a finite result is rounded,
an infinity or a NaN is kept. -/
def rounded (r : ℚ → FloatVal) : FloatVal → FloatVal
  | fin q => r q
  | v => v

end FloatVal

/-- What the source leaves to the platform: how an exact finite result is rounded to
`float` and to `double`, and what a `float` to `int` conversion yields when the truncated
value is not an `int` (the source converts without a check and goes on). -/
structure FloatEnv where
  roundFloat : ℚ → FloatVal
  roundDouble : ℚ → FloatVal
  indefinite : FloatVal → Int

namespace FloatEnv

/-- Conversion of an `int` to `float`. -/
def ofInt (env : FloatEnv) (n : Int) : FloatVal := env.roundFloat (n : ℚ)

/-- The `float` sum `a + b`. -/
def addFloat (env : FloatEnv) (a b : FloatVal) : FloatVal :=
  FloatVal.rounded env.roundFloat (FloatVal.add a b)

/-- The `float` difference `a - b`. -/
def subFloat (env : FloatEnv) (a b : FloatVal) : FloatVal :=
  FloatVal.rounded env.roundFloat (FloatVal.sub a b)

/-- The quotient `ch / sum` of a `double` by a `float`, computed in `double` and stored
in a `float`. -/
def quotient (env : FloatEnv) (ch sum : FloatVal) : FloatVal :=
  FloatVal.rounded env.roundFloat (FloatVal.rounded env.roundDouble (FloatVal.div ch sum))

end FloatEnv

/-- Arithmetic without rounding; an unrepresentable conversion to `int` yields `-2 ^ 31`,
the value the x86 conversion instruction delivers. -/
def exactEnv : FloatEnv :=
  { roundFloat := FloatVal.fin, roundDouble := FloatVal.fin, indefinite := fun _ => -2 ^ 31 }

/-- The multiple of `quantum` nearest to `a`, the even multiple on a tie. -/
def roundToMultiple (quantum a : ℚ) : ℚ :=
  let n : ℚ := a / quantum
  let m : Int := ⌊n⌋
  if n - m < 1 / 2 then m * quantum
  else if 1 / 2 < n - m then (m + 1) * quantum
  else if m % 2 = 0 then m * quantum else (m + 1) * quantum

/-- Rounding to nearest, ties to even, into the binary format with `prec` significand bits
and exponents from `emin` to `emax`: the magnitude is rounded to a multiple of the spacing
of its binade (of the subnormal spacing below `2 ^ emin`), and a result of `2 ^ (emax + 1)`
or more is an infinity. -/
def roundBinary (prec : Nat) (emin emax : Int) (q : ℚ) : FloatVal :=
  if q = 0 then FloatVal.fin 0
  else
    let a : ℚ := if 0 < q then q else -q
    let e : Int := max (Int.log 2 a) emin
    let r : ℚ := roundToMultiple ((2 : ℚ) ^ (e - (prec - 1))) a
    if (2 : ℚ) ^ (emax + 1) ≤ r then (if 0 < q then FloatVal.pinf else FloatVal.ninf)
    else FloatVal.fin (if 0 < q then r else -r)

/-- The arithmetic of an x86-64 build: `float` is binary32 and `double` binary64, both
rounded to nearest, and a `float` to `int` conversion of a NaN or of a value out of range
delivers `-2 ^ 31`. -/
def ieeeEnv : FloatEnv :=
  { roundFloat := roundBinary 24 (-126) 127,
    roundDouble := roundBinary 53 (-1022) 1023,
    indefinite := fun _ => -2 ^ 31 }

/-- Failures of a run that the source does not handle. -/
inductive Fault where
  /-- A `vector::at` with an index past the end: `std::out_of_range`. -/
  | outOfRange
  /-- A `uint` loop counter that can never reach a `size()` of `2 ^ 32` or more. -/
  | counterWraps
  /-- The driver model ran out of fuel. -/
  | outOfFuel
  deriving DecidableEq

/-- The value of the `float` with bit pattern `g` (IEEE-754 binary32: one sign bit,
eight exponent bits, twenty-three fraction bits). -/
def toFloat (g : Nat) : FloatVal :=
  let sign : Nat := g / 2 ^ 31 % 2
  let e : Nat := g / 2 ^ 23 % 256
  let m : Nat := g % 2 ^ 23
  if e = 255 then
    if m = 0 then (if sign = 0 then FloatVal.pinf else FloatVal.ninf) else FloatVal.nan
  else
    let mag : ℚ :=
      if e = 0 then (m : ℚ) / (2 : ℚ) ^ 149
      else ((2 ^ 23 + m : Nat) : ℚ) * (2 : ℚ) ^ e / (2 : ℚ) ^ 150
    FloatVal.fin (if sign = 0 then mag else -mag)

/-- Conversion of a `float` to `int`: truncation toward zero when the truncated value is
an `int`; otherwise (NaN and infinities included) the value the platform delivers. -/
def floatToInt (env : FloatEnv) : FloatVal → Int
  | FloatVal.fin q =>
      let t : Int := if 0 ≤ q then ⌊q⌋ else ⌈q⌉
      if -2 ^ 31 ≤ t ∧ t ≤ 2 ^ 31 - 1 then t else env.indefinite (FloatVal.fin q)
  | v => env.indefinite v

/-- Source: `std::accumulate(first, last, 0)`. The initial value `0` is an `int`, so the
accumulator has type `int`: every step converts the accumulator to `float`, adds `x` in
`float` and converts the result back to `int`. -/
def accumulate (env : FloatEnv) : List FloatVal → Int → Int
  | [], acc => acc
  | x :: rest, acc => accumulate env rest (floatToInt env (env.addFloat (env.ofInt acc) x))

/-! ## Selection and reproduction -/

/-- Source: `typedef vector<float> Population`, each `float` given by its bit pattern. -/
abbrev Population := List Nat

/-- Source: `const float CROSSING_CHANCE = 0.9`, the `float` nearest to `0.9`. -/
def CROSSING_CHANCE : ℚ := 15099494 / 16777216

/-- Source: `const float MUTATION_CHANCE = 0.05`, the `float` nearest to `0.05`. -/
def MUTATION_CHANCE : ℚ := 13421773 / 268435456

/-- Step #1 of `nextPopulation`: one weight `ch / sum` per genome, in order, `sum` being
the `int` result of `accumulate` stored in a `float`. -/
def distribution (env : FloatEnv) (prevPopulation : Population) (sum : Int) : List FloatVal :=
  prevPopulation.map (fun ch => env.quotient (toFloat ch) (env.ofInt sum))

/-- The `do ... while (spin > 0)` loop of one spin. The list is the part of
`distribution` from index `winner` on, so that the empty list is the exit
`winner == distribution.size()`. Returns the final value of `winner`. -/
def spinLoop (env : FloatEnv) : List FloatVal → FloatVal → Nat → Nat
  | [], _, winner => winner
  | d :: rest, spin, winner =>
      let spin1 := env.subFloat spin d
      let winner1 := winner + 1
      if FloatVal.gtZero spin1 then spinLoop env rest spin1 winner1 else winner1

/-- One spin of the wheel: the final value of `winner`, started at `0`. -/
def spinWheel (env : FloatEnv) (dist : List FloatVal) (spin : ℚ) : Nat :=
  spinLoop env dist (FloatVal.fin spin) 0

/-- Source: `vector::at`. -/
def vectorAt {α : Type} (v : List α) (i : Nat) : Except Fault α :=
  match v[i]? with
  | some x => Except.ok x
  | none => Except.error Fault.outOfRange

/-- Step #2 of `nextPopulation`: `n` further iterations of the loop that fills
`parrentPull`, each pushing `prevPopulation->at(winner - 1)`. -/
def selectParents (env : FloatEnv) (prevPopulation : Population) (dist : List FloatVal) :
    Nat → Rng → Except Fault (List Nat × Rng)
  | 0, rng => Except.ok ([], rng)
  | n + 1, rng =>
      let (spin, rng1) := randomFloatDist 0 1 rng
      let winner := spinWheel env dist spin
      match vectorAt prevPopulation (usub winner 1) with
      | Except.error e => Except.error e
      | Except.ok ch =>
          match selectParents env prevPopulation dist n rng1 with
          | Except.error e => Except.error e
          | Except.ok (rest, rng2) => Except.ok (ch :: rest, rng2)

/-- Whether `g` is the pattern of a signalling NaN: exponent bits all ones, fraction not
zero, bit 22 (the quiet bit) clear. -/
def isSignalingNaN (g : Nat) : Bool :=
  g / 2 ^ 23 % 256 == 255 && g % 2 ^ 23 != 0 && g / 2 ^ 22 % 2 == 0

/-- The conversion `float → double → float` as IEEE-754 arithmetic performs it (the two
conversion instructions of a build that keeps the loop variable `double ch`): every
pattern comes back unchanged, except a signalling NaN, which comes back quiet, with
bit 22 set. -/
def ieeeViaDouble (g : Nat) : Nat :=
  if isSignalingNaN g then g ||| 2 ^ 22 else g

/-- One iteration of the loop of step #3: pairing, crossing, mutating and the coin.
`viaDouble` is the conversion `float → double → float` that the loop variable
`double ch` undergoes (`ieeeViaDouble`, or the identity where the build drops it). -/
def reproduce (viaDouble : Nat → Nat) (prevPopulation : Population) (ch : Nat) (rng : Rng) :
    Except Fault (Nat × Rng) :=
  let (randomParent, rng1) := randomUIntDist 0 (usub prevPopulation.length 1) rng
  match vectorAt prevPopulation randomParent with
  | Except.error e => Except.error e
  | Except.ok other =>
      let pair0 : Nat × Nat := (viaDouble ch, other)
      let (prob, rng2) := randomFloatDist 0 1 rng1
      let (pair1, rng3) := if prob < CROSSING_CHANCE then cross pair0 rng2 else (pair0, rng2)
      let (probA, rng4) := randomFloatDist 0 1 rng3
      let (probB, rng5) := randomFloatDist 0 1 rng4
      let (first, rng6) := if probA < MUTATION_CHANCE then mutate pair1.1 rng5 else (pair1.1, rng5)
      let (second, rng7) := if probB < MUTATION_CHANCE then mutate pair1.2 rng6 else (pair1.2, rng6)
      let (coin, rng8) := randomFloatDist 0 1 rng7
      Except.ok (if coin < 1 / 2 then first else second, rng8)

/-- Step #3 of `nextPopulation`: the loop over `parrentPull`. -/
def reproduceAll (viaDouble : Nat → Nat) (prevPopulation : Population) :
    List Nat → Rng → Except Fault (Population × Rng)
  | [], rng => Except.ok ([], rng)
  | ch :: rest, rng =>
      match reproduce viaDouble prevPopulation ch rng with
      | Except.error e => Except.error e
      | Except.ok (survivor, rng1) =>
          match reproduceAll viaDouble prevPopulation rest rng1 with
          | Except.error e => Except.error e
          | Except.ok (nextP, rng2) => Except.ok (survivor :: nextP, rng2)

/-- Source: `nextPopulation`. Step #1 sums the genome values with `std::accumulate` and
builds `distribution`; step #2 spins the wheel `prevPopulation->size()` times, counting
with a `uint`; step #3 turns every member of `parrentPull` into one survivor. -/
def nextPopulation (env : FloatEnv) (viaDouble : Nat → Nat) (prevPopulation : Population)
    (rng : Rng) : Except Fault (Population × Rng) :=
  let sum := accumulate env (prevPopulation.map toFloat) 0
  if UINT_RANGE ≤ prevPopulation.length then Except.error Fault.counterWraps
  else
    match selectParents env prevPopulation (distribution env prevPopulation sum)
        prevPopulation.length rng with
    | Except.error e => Except.error e
    | Except.ok (parrentPull, rng1) => reproduceAll viaDouble prevPopulation parrentPull rng1

/-! ## The driver -/

/-- Source: the lambda `isEnoughPrecise` of `main`,
`(ch >= maximum - precision) && (ch <= maximum + precision)`. The constants
`maximum = f(20.0)` and `precision = 1 / pow(10, n)` of `main` are parameters, and the
two bounds are taken without rounding. -/
def isEnoughPrecise (maximum precision : ℚ) (ch : Nat) : Bool :=
  FloatVal.le (FloatVal.fin (maximum - precision)) (toFloat ch) &&
    FloatVal.le (toFloat ch) (FloatVal.fin (maximum + precision))

/-- The condition of the `do ... while` loop of `main`:
`find_if(p->begin(), p->end(), isEnoughPrecise) == p->end()`. -/
def loopContinues (maximum precision : ℚ) (p : Population) : Bool :=
  (p.find? (isEnoughPrecise maximum precision)).isNone

/-- The `do ... while` loop of `main`, for at most `fuel` generations: the final
`index` and population. -/
def mainLoop (env : FloatEnv) (viaDouble : Nat → Nat) (maximum precision : ℚ) :
    Nat → Nat → Population → Rng → Except Fault (Nat × Population)
  | 0, _, _, _ => Except.error Fault.outOfFuel
  | fuel + 1, index, p, rng =>
      let index1 := (index + 1) % UINT_RANGE
      match nextPopulation env viaDouble p rng with
      | Except.error e => Except.error e
      | Except.ok (p1, rng1) =>
          if loopContinues maximum precision p1 then
            mainLoop env viaDouble maximum precision fuel index1 p1 rng1
          else Except.ok (index1, p1)

/-- The pair held by one iteration of step #3 at the moment the coin is thrown: the
pairing, the crossing and the two mutations of `reproduce`, with the same draws. -/
def pairAtCoin (viaDouble : Nat → Nat) (prevPopulation : Population) (ch : Nat) (rng : Rng) :
    Except Fault ((Nat × Nat) × Rng) :=
  let (randomParent, rng1) := randomUIntDist 0 (usub prevPopulation.length 1) rng
  match vectorAt prevPopulation randomParent with
  | Except.error e => Except.error e
  | Except.ok other =>
      let pair0 : Nat × Nat := (viaDouble ch, other)
      let (prob, rng2) := randomFloatDist 0 1 rng1
      let (pair1, rng3) := if prob < CROSSING_CHANCE then cross pair0 rng2 else (pair0, rng2)
      let (probA, rng4) := randomFloatDist 0 1 rng3
      let (probB, rng5) := randomFloatDist 0 1 rng4
      let (first, rng6) := if probA < MUTATION_CHANCE then mutate pair1.1 rng5 else (pair1.1, rng5)
      let (second, rng7) := if probB < MUTATION_CHANCE then mutate pair1.2 rng6 else (pair1.2, rng6)
      Except.ok ((first, second), rng7)

/-- The genomes a survivor can descend from in one iteration of step #3 with pool member
`c`, second parent `o` and breakpoint `k`: the two children of the crossing and the two
members of the uncrossed pair. -/
def pairMembers (viaDouble : Nat → Nat) (c o k : Nat) : List Nat :=
  [(crossAt k (viaDouble c, o)).1, (crossAt k (viaDouble c, o)).2, viaDouble c, o]

/-! ## Bit-level lemmas -/

theorem generateCrossMask_closed (k : Nat) (hk : k ≤ 31) :
    generateCrossMask k = 2 ^ 32 - 2 ^ (32 - k) := by
  interval_cases k <;> decide

theorem generateCrossMask_lt (k : Nat) (hk : k ≤ 31) : generateCrossMask k < 2 ^ 32 := by
  rw [generateCrossMask_closed k hk]
  have : 0 < 2 ^ (32 - k) := Nat.two_pow_pos _
  omega

theorem generateCrossMask_testBit (k : Nat) (hk : k ≤ 31) (i : Nat) :
    (generateCrossMask k).testBit i = decide (32 - k ≤ i ∧ i < 32) := by
  rw [generateCrossMask_closed k hk]
  have h1 : 2 ^ (32 - k) - 1 < 2 ^ 32 := by
    have : 2 ^ (32 - k) ≤ 2 ^ 32 := Nat.pow_le_pow_right (by decide) (by omega)
    have : 0 < 2 ^ (32 - k) := Nat.two_pow_pos _
    omega
  have h2 : 2 ^ 32 - 2 ^ (32 - k) = 2 ^ 32 - ((2 ^ (32 - k) - 1) + 1) := by
    have : 0 < 2 ^ (32 - k) := Nat.two_pow_pos _
    omega
  rw [h2, Nat.testBit_two_pow_sub_succ h1, Nat.testBit_two_pow_sub_one]
  by_cases h3 : i < 32 <;> by_cases h4 : i < 32 - k <;> simp [h3, h4] <;> omega

theorem popCount_generateCrossMask (k : Nat) (hk : k ≤ 31) :
    popCount (generateCrossMask k) = k := by
  interval_cases k <;> decide

theorem unot_testBit (x : Nat) (hx : x < 2 ^ 32) (i : Nat) :
    (unot x).testBit i = (decide (i < 32) && !x.testBit i) := by
  have h : unot x = 2 ^ 32 - (x + 1) := by
    unfold unot UINT_RANGE
    rw [Nat.mod_eq_of_lt hx]
    omega
  rw [h, Nat.testBit_two_pow_sub_succ hx]

theorem unot_lt (x : Nat) : unot x < 2 ^ 32 := by
  unfold unot UINT_RANGE
  omega

theorem draw_le (rng : Rng) : (randomUIntDist 0 (FLOAT_SIZE - 1) rng).1 ≤ 31 := by
  show 0 + (rng 0).u % (FLOAT_SIZE - 1 - 0 + 1) ≤ 31
  have : FLOAT_SIZE - 1 - 0 + 1 = 32 := by decide
  rw [this]
  omega

theorem cross_fst (pair : Nat × Nat) (rng : Rng) :
    (cross pair rng).1 = crossAt (randomUIntDist 0 (FLOAT_SIZE - 1) rng).1 pair := rfl

theorem mutate_fst (g : Nat) (rng : Rng) :
    (mutate g rng).1 = mutateAt (randomUIntDist 0 (FLOAT_SIZE - 1) rng).1 g := rfl

theorem crossAt_fst_testBit (a b k : Nat) (hk : k ≤ 31) (i : Nat) (hi : i < 32) :
    (crossAt k (a, b)).1.testBit i = if 32 - k ≤ i then a.testBit i else b.testBit i := by
  simp only [crossAt, Nat.testBit_or, Nat.testBit_and, generateCrossMask_testBit k hk,
    unot_testBit _ (generateCrossMask_lt k hk)]
  by_cases h : 32 - k ≤ i <;> simp [h, hi]

theorem crossAt_snd_testBit (a b k : Nat) (hk : k ≤ 31) (i : Nat) (hi : i < 32) :
    (crossAt k (a, b)).2.testBit i = if 32 - k ≤ i then b.testBit i else a.testBit i := by
  simp only [crossAt, Nat.testBit_or, Nat.testBit_and, generateCrossMask_testBit k hk,
    unot_testBit _ (generateCrossMask_lt k hk)]
  by_cases h : 32 - k ≤ i <;> simp [h, hi]

theorem crossAt_lt (a b k : Nat) (hk : k ≤ 31) :
    (crossAt k (a, b)).1 < 2 ^ 32 ∧ (crossAt k (a, b)).2 < 2 ^ 32 :=
  ⟨Nat.or_lt_two_pow (Nat.and_lt_two_pow _ (generateCrossMask_lt k hk))
      (Nat.and_lt_two_pow _ (unot_lt _)),
   Nat.or_lt_two_pow (Nat.and_lt_two_pow _ (generateCrossMask_lt k hk))
      (Nat.and_lt_two_pow _ (unot_lt _))⟩

theorem crossAt_or (a b k : Nat) (ha : a < 2 ^ 32) (hb : b < 2 ^ 32) (hk : k ≤ 31) :
    (crossAt k (a, b)).1 ||| (crossAt k (a, b)).2 = a ||| b := by
  apply Nat.eq_of_testBit_eq
  intro i
  by_cases hi : i < 32
  · rw [Nat.testBit_or, Nat.testBit_or, crossAt_fst_testBit a b k hk i hi,
      crossAt_snd_testBit a b k hk i hi]
    by_cases h : 32 - k ≤ i
    · simp [h]
    · simp [h, Bool.or_comm]
  · have hp : 2 ^ 32 ≤ 2 ^ i := Nat.pow_le_pow_right (by decide) (by omega)
    have hl : (crossAt k (a, b)).1 ||| (crossAt k (a, b)).2 < 2 ^ i :=
      Nat.lt_of_lt_of_le (Nat.or_lt_two_pow (crossAt_lt a b k hk).1 (crossAt_lt a b k hk).2) hp
    have hr : a ||| b < 2 ^ i := Nat.lt_of_lt_of_le (Nat.or_lt_two_pow ha hb) hp
    rw [Nat.testBit_lt_two_pow hl, Nat.testBit_lt_two_pow hr]

theorem flip_shift (r : Nat) (hr : r ≤ 31) :
    intToUInt (toInt32 (1 * 2 ^ usub (usub UINT_SIZE r) 1)) = 2 ^ (31 - r) := by
  interval_cases r <;> decide

theorem mutateAt_eq (r g : Nat) (hr : r ≤ 31) : mutateAt r g = g ^^^ 2 ^ (31 - r) := by
  unfold mutateAt
  rw [flip_shift r hr]

theorem hammingDistance_flip (g c : Nat) (hc : c ≤ 31) :
    hammingDistance g (g ^^^ 2 ^ c) = 1 := by
  have h : (fun i => g.testBit i != (g ^^^ 2 ^ c).testBit i) = fun i => decide (c = i) := by
    funext i
    rw [Nat.testBit_xor, Nat.testBit_two_pow]
    cases g.testBit i <;> cases decide (c = i) <;> rfl
  unfold hammingDistance
  rw [h]
  interval_cases c <;> decide

/-! ## Selection lemmas -/

theorem spinLoop_bounds (env : FloatEnv) (l : List FloatVal) (spin : FloatVal) (winner : Nat) :
    winner ≤ spinLoop env l spin winner ∧ spinLoop env l spin winner ≤ winner + l.length ∧
      (l ≠ [] → winner + 1 ≤ spinLoop env l spin winner) := by
  induction l generalizing spin winner with
  | nil => simp [spinLoop]
  | cons d rest ih =>
    simp only [spinLoop, List.length_cons]
    split
    · obtain ⟨h1, h2, _⟩ := ih (env.subFloat spin d) (winner + 1)
      exact ⟨by omega, by omega, fun _ => h1⟩
    · exact ⟨by omega, by omega, fun _ => le_refl _⟩

theorem spinWheel_bounds (env : FloatEnv) (dist : List FloatVal) (spin : ℚ) (h : dist ≠ []) :
    1 ≤ spinWheel env dist spin ∧ spinWheel env dist spin ≤ dist.length := by
  obtain ⟨_, h2, h3⟩ := spinLoop_bounds env dist (FloatVal.fin spin) 0
  exact ⟨by simpa using h3 h, by simpa using h2⟩

theorem usub_one (w : Nat) (h1 : 1 ≤ w) (h2 : w < 2 ^ 32) : usub w 1 = w - 1 := by
  unfold usub UINT_RANGE
  rw [Nat.mod_eq_of_lt (by omega : 1 < 2 ^ 32)]
  have : w + 2 ^ 32 - 1 = (w - 1) + 2 ^ 32 := by omega
  rw [this, Nat.add_mod_right, Nat.mod_eq_of_lt (by omega)]

theorem vectorAt_ok {α : Type} (v : List α) (i : Nat) (h : i < v.length) :
    vectorAt v i = Except.ok (v.get ⟨i, h⟩) := by
  unfold vectorAt
  rw [List.getElem?_eq_getElem h]
  rfl

theorem distribution_length (env : FloatEnv) (p : Population) (sum : Int) :
    (distribution env p sum).length = p.length := by
  simp [distribution]

theorem selectParents_ok (env : FloatEnv) (p : Population) (dist : List FloatVal)
    (hd : dist.length = p.length) (hne : p ≠ []) (hlt : p.length < 2 ^ 32) (n : Nat)
    (rng : Rng) :
    ∃ pool rng1, selectParents env p dist n rng = Except.ok (pool, rng1) ∧ pool.length = n ∧
      ∀ x ∈ pool, x ∈ p := by
  induction n generalizing rng with
  | zero => exact ⟨[], rng, rfl, rfl, by simp⟩
  | succ n ih =>
    have hdne : dist ≠ [] := by
      intro h0
      rw [h0] at hd
      exact hne (List.length_eq_zero.mp hd.symm)
    obtain ⟨hw1, hw2⟩ := spinWheel_bounds env dist (randomFloatDist 0 1 rng).1 hdne
    have hidx : usub (spinWheel env dist (randomFloatDist 0 1 rng).1) 1 < p.length := by
      rw [usub_one _ hw1 (by omega)]
      omega
    obtain ⟨pool, rng2, hrec, hlen, hmem⟩ := ih (randomFloatDist 0 1 rng).2
    refine ⟨p.get ⟨_, hidx⟩ :: pool, rng2, ?_, by simp [hlen], ?_⟩
    · simp only [selectParents, vectorAt_ok p _ hidx, hrec]
    · intro x hx
      rcases List.mem_cons.mp hx with h | h
      · rw [h]
        exact List.get_mem _ _ _
      · exact hmem x h

theorem randomParent_lt (p : Population) (hne : p ≠ []) (hlt : p.length < 2 ^ 32) (rng : Rng) :
    (randomUIntDist 0 (usub p.length 1) rng).1 < p.length := by
  have hpos : 1 ≤ p.length := List.length_pos.mpr hne
  rw [usub_one _ hpos hlt]
  show 0 + (rng 0).u % (p.length - 1 - 0 + 1) < p.length
  have h : p.length - 1 - 0 + 1 = p.length := by omega
  rw [h, Nat.zero_add]
  exact Nat.mod_lt _ hpos

theorem reproduce_ok (viaDouble : Nat → Nat) (p : Population) (hne : p ≠ [])
    (hlt : p.length < 2 ^ 32) (ch : Nat) (rng : Rng) :
    ∃ survivor rng1, reproduce viaDouble p ch rng = Except.ok (survivor, rng1) := by
  have hidx := randomParent_lt p hne hlt rng
  simp only [reproduce, vectorAt_ok p _ hidx]
  exact ⟨_, _, rfl⟩

theorem reproduceAll_ok (viaDouble : Nat → Nat) (p : Population) (hne : p ≠ [])
    (hlt : p.length < 2 ^ 32) (pool : List Nat) (rng : Rng) :
    ∃ nextP rng1, reproduceAll viaDouble p pool rng = Except.ok (nextP, rng1) ∧
      nextP.length = pool.length := by
  induction pool generalizing rng with
  | nil => exact ⟨[], rng, rfl, rfl⟩
  | cons ch rest ih =>
    obtain ⟨survivor, rng1, h1⟩ := reproduce_ok viaDouble p hne hlt ch rng
    obtain ⟨nextP, rng2, h2, hlen⟩ := ih rng1
    refine ⟨survivor :: nextP, rng2, ?_, by simp [hlen]⟩
    simp only [reproduceAll, h1, h2]

theorem nextPopulation_nil (env : FloatEnv) (viaDouble : Nat → Nat) (rng : Rng) :
    nextPopulation env viaDouble [] rng = Except.ok ([], rng) := by
  simp [nextPopulation, UINT_RANGE, selectParents, reproduceAll]

theorem nextPopulation_ok (env : FloatEnv) (viaDouble : Nat → Nat) (p : Population) (rng : Rng)
    (hlt : p.length < 2 ^ 32) :
    ∃ nextP rng1, nextPopulation env viaDouble p rng = Except.ok (nextP, rng1) ∧
      nextP.length = p.length := by
  have hguard : ¬ UINT_RANGE ≤ p.length := by
    unfold UINT_RANGE
    omega
  by_cases hne : p = []
  · subst hne
    exact ⟨[], rng, nextPopulation_nil env viaDouble rng, rfl⟩
  · obtain ⟨pool, rng1, h1, hlen1, _⟩ :=
      selectParents_ok env p (distribution env p (accumulate env (p.map toFloat) 0))
        (distribution_length env p _) hne hlt p.length rng
    obtain ⟨nextP, rng2, h2, hlen2⟩ := reproduceAll_ok viaDouble p hne hlt pool rng1
    refine ⟨nextP, rng2, ?_, by rw [hlen2, hlen1]⟩
    simp only [nextPopulation, if_neg hguard, h1, h2]

/-! ## Evaluation at concrete genomes -/

theorem toFloat_five_and_half : toFloat 0x40B00000 = FloatVal.fin (11 / 2) := by
  norm_num [toFloat]

theorem toFloat_half : toFloat 0x3F000000 = FloatVal.fin (1 / 2) := by
  norm_num [toFloat]

theorem toFloat_twenty : toFloat 0x41A00000 = FloatVal.fin 20 := by
  norm_num [toFloat]

theorem accumulate_five_and_half :
    accumulate exactEnv ([0x40B00000, 0x40B00000].map toFloat) 0 = 10 := by
  simp only [List.map, toFloat_five_and_half, accumulate, FloatEnv.addFloat, FloatEnv.ofInt,
    exactEnv, FloatVal.rounded, FloatVal.add, floatToInt]
  norm_num

theorem accumulate_half : accumulate exactEnv ([0x3F000000].map toFloat) 0 = 0 := by
  simp only [List.map, toFloat_half, accumulate, FloatEnv.addFloat, FloatEnv.ofInt,
    exactEnv, FloatVal.rounded, FloatVal.add, floatToInt]
  norm_num

/-! ## Evaluation in binary32 arithmetic -/

theorem log_two_eq (q : ℚ) (e : Int) (h1 : (2 : ℚ) ^ e ≤ q) (h2 : q < (2 : ℚ) ^ (e + 1)) :
    Int.log 2 q = e := by
  have hq : 0 < q := lt_of_lt_of_le (by positivity) h1
  have a := (Int.zpow_le_iff_le_log (by norm_num : 1 < 2) hq).mp (by exact_mod_cast h1)
  have b := (Int.lt_zpow_iff_log_lt (by norm_num : 1 < 2) hq).mp (by exact_mod_cast h2)
  omega

theorem roundBinary_pos (prec : Nat) (emin emax : Int) (q : ℚ) (e : Int)
    (h1 : (2 : ℚ) ^ e ≤ q) (h2 : q < (2 : ℚ) ^ (e + 1)) (he : emin ≤ e) :
    roundBinary prec emin emax q =
      if (2 : ℚ) ^ (emax + 1) ≤ roundToMultiple ((2 : ℚ) ^ (e - (prec - 1))) q then FloatVal.pinf
      else FloatVal.fin (roundToMultiple ((2 : ℚ) ^ (e - (prec - 1))) q) := by
  have hq : 0 < q := lt_of_lt_of_le (by positivity) h1
  have hne : q ≠ 0 := ne_of_gt hq
  simp only [roundBinary, if_neg hne, if_pos hq, log_two_eq q e h1 h2, max_eq_left he]

theorem roundBinary_zero (prec : Nat) (emin emax : Int) :
    roundBinary prec emin emax 0 = FloatVal.fin 0 := by
  simp [roundBinary]

theorem roundFloat_eleven_halves :
    roundBinary 24 (-126) 127 (11 / 2) = FloatVal.fin (11 / 2) := by
  rw [roundBinary_pos 24 (-126) 127 (11 / 2) 2 (by norm_num) (by norm_num) (by norm_num)]
  norm_num [roundToMultiple]

theorem roundFloat_five : roundBinary 24 (-126) 127 5 = FloatVal.fin 5 := by
  rw [roundBinary_pos 24 (-126) 127 5 2 (by norm_num) (by norm_num) (by norm_num)]
  norm_num [roundToMultiple]

theorem roundFloat_ten : roundBinary 24 (-126) 127 10 = FloatVal.fin 10 := by
  rw [roundBinary_pos 24 (-126) 127 10 3 (by norm_num) (by norm_num) (by norm_num)]
  norm_num [roundToMultiple]

theorem roundFloat_ten_and_half :
    roundBinary 24 (-126) 127 (21 / 2) = FloatVal.fin (21 / 2) := by
  rw [roundBinary_pos 24 (-126) 127 (21 / 2) 3 (by norm_num) (by norm_num) (by norm_num)]
  norm_num [roundToMultiple]

theorem roundFloat_half : roundBinary 24 (-126) 127 (1 / 2) = FloatVal.fin (1 / 2) := by
  rw [roundBinary_pos 24 (-126) 127 (1 / 2) (-1) (by norm_num) (by norm_num) (by norm_num)]
  norm_num [roundToMultiple]

theorem roundDouble_eleven_twentieths :
    roundBinary 53 (-1022) 1023 (11 / 20) =
      FloatVal.fin (2476979795053773 / 4503599627370496) := by
  rw [roundBinary_pos 53 (-1022) 1023 (11 / 20) (-1) (by norm_num) (by norm_num) (by norm_num)]
  norm_num [roundToMultiple]

theorem roundFloat_eleven_twentieths :
    roundBinary 24 (-126) 127 (2476979795053773 / 4503599627370496) =
      FloatVal.fin (9227469 / 16777216) := by
  rw [roundBinary_pos 24 (-126) 127 (2476979795053773 / 4503599627370496) (-1) (by norm_num)
    (by norm_num) (by norm_num)]
  norm_num [roundToMultiple]

theorem toFloat_weight : toFloat 0x3F0CCCCD = FloatVal.fin (9227469 / 16777216) := by
  norm_num [toFloat]

theorem accumulate_five_and_half_ieee :
    accumulate ieeeEnv ([0x40B00000, 0x40B00000].map toFloat) 0 = 10 := by
  simp only [List.map, toFloat_five_and_half, accumulate, FloatEnv.addFloat, FloatEnv.ofInt,
    ieeeEnv, FloatVal.rounded, FloatVal.add, floatToInt, Int.cast_zero, roundBinary_zero,
    zero_add, roundFloat_eleven_halves]
  norm_num [roundFloat_five, roundFloat_ten_and_half]

theorem distribution_five_and_half_ieee :
    distribution ieeeEnv [0x40B00000, 0x40B00000] 10 =
      [FloatVal.fin (9227469 / 16777216), FloatVal.fin (9227469 / 16777216)] := by
  have hq : (11 / 2 : ℚ) / 10 = 11 / 20 := by norm_num
  simp only [distribution, List.map, toFloat_five_and_half, FloatEnv.quotient, FloatEnv.ofInt,
    ieeeEnv, FloatVal.rounded, FloatVal.div, Int.cast_ofNat, roundFloat_ten]
  norm_num [hq, roundDouble_eleven_twentieths, roundFloat_eleven_twentieths]

theorem accumulate_half_ieee : accumulate ieeeEnv ([0x3F000000].map toFloat) 0 = 0 := by
  simp only [List.map, toFloat_half, accumulate, FloatEnv.addFloat, FloatEnv.ofInt,
    ieeeEnv, FloatVal.rounded, FloatVal.add, floatToInt, Int.cast_zero, roundBinary_zero,
    zero_add, roundFloat_half]
  norm_num

theorem distribution_half_ieee : distribution ieeeEnv [0x3F000000] 0 = [FloatVal.pinf] := by
  simp only [distribution, List.map, toFloat_half, FloatEnv.quotient, FloatEnv.ofInt,
    ieeeEnv, FloatVal.rounded, FloatVal.div, Int.cast_zero, roundBinary_zero]
  norm_num

theorem addFloat_ieee (a b : ℚ) :
    ieeeEnv.addFloat (FloatVal.fin a) (FloatVal.fin b) = roundBinary 24 (-126) 127 (a + b) := by
  simp only [FloatEnv.addFloat, ieeeEnv, FloatVal.add, FloatVal.rounded]

theorem ofInt_ieee (n : Int) : ieeeEnv.ofInt n = roundBinary 24 (-126) 127 (n : ℚ) := by
  simp only [FloatEnv.ofInt, ieeeEnv]

theorem accumulate_cons (env : FloatEnv) (x : FloatVal) (rest : List FloatVal) (acc : Int) :
    accumulate env (x :: rest) acc =
      accumulate env rest (floatToInt env (env.addFloat (env.ofInt acc) x)) := rfl

theorem roundFloat_two_pow_24 :
    roundBinary 24 (-126) 127 16777216 = FloatVal.fin 16777216 := by
  rw [roundBinary_pos 24 (-126) 127 16777216 24 (by norm_num) (by norm_num) (by norm_num)]
  norm_num [roundToMultiple]

theorem roundFloat_two_pow_24_succ :
    roundBinary 24 (-126) 127 16777217 = FloatVal.fin 16777216 := by
  rw [roundBinary_pos 24 (-126) 127 16777217 24 (by norm_num) (by norm_num) (by norm_num)]
  norm_num [roundToMultiple]

theorem toFloat_two_pow_24 : toFloat 0x4B800000 = FloatVal.fin 16777216 := by
  norm_num [toFloat]

theorem floatToInt_two_pow_24 (env : FloatEnv) :
    floatToInt env (FloatVal.fin 16777216) = 16777216 := by
  have h : ⌊(16777216 : ℚ)⌋ = 16777216 := by norm_num
  simp only [floatToInt, h]
  norm_num

theorem accumulate_step_rounds (rest : List FloatVal) :
    accumulate ieeeEnv (FloatVal.fin 1 :: rest) 16777216 = accumulate ieeeEnv rest 16777216 := by
  have h1 : ((16777216 : Int) : ℚ) = 16777216 := by norm_num
  have h2 : (16777216 : ℚ) + 1 = 16777217 := by norm_num
  rw [accumulate_cons, ofInt_ieee, h1, roundFloat_two_pow_24, addFloat_ieee, h2,
    roundFloat_two_pow_24_succ, floatToInt_two_pow_24]

/-- Rounding inside the summation of step #1: after `16777216.0`, each `1.0` added in
binary32 rounds back to `16777216`. -/
theorem accumulate_rounds :
    accumulate ieeeEnv
      [FloatVal.fin 16777216, FloatVal.fin 1, FloatVal.fin 1, FloatVal.fin 1] 0 = 16777216 := by
  have h0 : ((0 : Int) : ℚ) = 0 := by norm_num
  have h1 : (0 : ℚ) + 16777216 = 16777216 := by norm_num
  rw [accumulate_cons, ofInt_ieee, h0, roundBinary_zero, addFloat_ieee, h1,
    roundFloat_two_pow_24, floatToInt_two_pow_24, accumulate_step_rounds,
    accumulate_step_rounds, accumulate_step_rounds]
  rfl

/-! ## Driver lemmas -/

theorem isEnoughPrecise_iff (maximum precision : ℚ) (g : Nat) :
    isEnoughPrecise maximum precision g = true ↔
      ∃ v, toFloat g = FloatVal.fin v ∧ maximum - precision ≤ v ∧ v ≤ maximum + precision := by
  unfold isEnoughPrecise
  cases h : toFloat g <;> simp [FloatVal.le]

theorem loopContinues_eq_false_iff (maximum precision : ℚ) (p : Population) :
    loopContinues maximum precision p = false ↔
      ∃ g ∈ p, ∃ v, toFloat g = FloatVal.fin v ∧
        maximum - precision ≤ v ∧ v ≤ maximum + precision := by
  unfold loopContinues
  rw [Bool.eq_false_iff, ne_eq, Option.isNone_iff_eq_none, List.find?_eq_none]
  constructor
  · intro h
    by_contra hcon
    apply h
    intro g hg hpre
    exact hcon ⟨g, hg, (isEnoughPrecise_iff maximum precision g).mp hpre⟩
  · rintro ⟨g, hg, hv⟩ hall
    exact hall g hg ((isEnoughPrecise_iff maximum precision g).mpr hv)

/-! ## Further bit-level lemmas -/

theorem mix_testBit (x y k : Nat) (hk : k ≤ 31) (i : Nat) (hi : i < 32) :
    ((x &&& generateCrossMask k) ||| (y &&& unot (generateCrossMask k))).testBit i =
      if 32 - k ≤ i then x.testBit i else y.testBit i :=
  crossAt_fst_testBit x y k hk i hi

theorem testBit_eq_false_of_lt (x i : Nat) (hx : x < 2 ^ 32) (hi : ¬ i < 32) :
    x.testBit i = false :=
  Nat.testBit_lt_two_pow
    (Nat.lt_of_lt_of_le hx (Nat.pow_le_pow_right (by decide) (by omega)))

theorem mix_self (x k : Nat) (hx : x < 2 ^ 32) (hk : k ≤ 31) :
    (x &&& generateCrossMask k) ||| (x &&& unot (generateCrossMask k)) = x := by
  apply Nat.eq_of_testBit_eq
  intro i
  by_cases hi : i < 32
  · rw [mix_testBit x x k hk i hi]
    split <;> rfl
  · have hl : (x &&& generateCrossMask k) ||| (x &&& unot (generateCrossMask k)) < 2 ^ 32 :=
      (crossAt_lt x x k hk).1
    rw [testBit_eq_false_of_lt _ i hl hi, testBit_eq_false_of_lt x i hx hi]

theorem crossAt_self (x k : Nat) (hx : x < 2 ^ 32) (hk : k ≤ 31) :
    crossAt k (x, x) = (x, x) := by
  have h := mix_self x k hx hk
  unfold crossAt
  simp only [h]

theorem crossAt_zero (a b : Nat) (ha : a < 2 ^ 32) (hb : b < 2 ^ 32) :
    crossAt 0 (a, b) = (b, a) := by
  have h1 : (crossAt 0 (a, b)).1 = b := by
    apply Nat.eq_of_testBit_eq
    intro i
    by_cases hi : i < 32
    · rw [crossAt_fst_testBit a b 0 (by decide) i hi, if_neg (by omega)]
    · rw [testBit_eq_false_of_lt _ i (crossAt_lt a b 0 (by decide)).1 hi,
        testBit_eq_false_of_lt b i hb hi]
  have h2 : (crossAt 0 (a, b)).2 = a := by
    apply Nat.eq_of_testBit_eq
    intro i
    by_cases hi : i < 32
    · rw [crossAt_snd_testBit a b 0 (by decide) i hi, if_neg (by omega)]
    · rw [testBit_eq_false_of_lt _ i (crossAt_lt a b 0 (by decide)).2 hi,
        testBit_eq_false_of_lt a i ha hi]
  exact Prod.ext h1 h2

theorem crossAt_involutive (a b k : Nat) (ha : a < 2 ^ 32) (hb : b < 2 ^ 32) (hk : k ≤ 31) :
    crossAt k (crossAt k (a, b)) = (a, b) := by
  have h1 : (crossAt k ((crossAt k (a, b)).1, (crossAt k (a, b)).2)).1 = a := by
    apply Nat.eq_of_testBit_eq
    intro i
    by_cases hi : i < 32
    · rw [crossAt_fst_testBit _ _ k hk i hi, crossAt_fst_testBit a b k hk i hi,
        crossAt_snd_testBit a b k hk i hi]
      by_cases h : 32 - k ≤ i <;> simp [h]
    · rw [testBit_eq_false_of_lt _ i (crossAt_lt _ _ k hk).1 hi, testBit_eq_false_of_lt a i ha hi]
  have h2 : (crossAt k ((crossAt k (a, b)).1, (crossAt k (a, b)).2)).2 = b := by
    apply Nat.eq_of_testBit_eq
    intro i
    by_cases hi : i < 32
    · rw [crossAt_snd_testBit _ _ k hk i hi, crossAt_fst_testBit a b k hk i hi,
        crossAt_snd_testBit a b k hk i hi]
      by_cases h : 32 - k ≤ i <;> simp [h]
    · rw [testBit_eq_false_of_lt _ i (crossAt_lt _ _ k hk).2 hi, testBit_eq_false_of_lt b i hb hi]
  exact Prod.ext h1 h2

theorem hammingDistance_comm (x y : Nat) : hammingDistance x y = hammingDistance y x := by
  unfold hammingDistance
  congr 2
  funext i
  cases x.testBit i <;> cases y.testBit i <;> rfl

theorem hammingDistance_self (x : Nat) : hammingDistance x x = 0 := by
  unfold hammingDistance
  simp

/-! ## Faults of a generation -/

theorem nextPopulation_ne_outOfRange (env : FloatEnv) (viaDouble : Nat → Nat) (p : Population)
    (rng : Rng) : nextPopulation env viaDouble p rng ≠ Except.error Fault.outOfRange := by
  intro h
  by_cases hguard : UINT_RANGE ≤ p.length
  · simp only [nextPopulation, if_pos hguard] at h
    cases h
  · have hlt : p.length < 2 ^ 32 := by
      unfold UINT_RANGE at hguard
      omega
    obtain ⟨nextP, rng1, hok, _⟩ := nextPopulation_ok env viaDouble p rng hlt
    rw [hok] at h
    cases h

/-! ## One reproduction event -/

theorem reproduce_eq (viaDouble : Nat → Nat) (p : Population) (ch : Nat) (rng : Rng) :
    reproduce viaDouble p ch rng =
      match pairAtCoin viaDouble p ch rng with
      | Except.error e => Except.error e
      | Except.ok (pair, rng7) =>
          Except.ok (if (randomFloatDist 0 1 rng7).1 < 1 / 2 then pair.1 else pair.2,
            (randomFloatDist 0 1 rng7).2) := by
  simp only [reproduce, pairAtCoin, randomUIntDist]
  cases vectorAt p (0 + (rng 0).u % (usub p.length 1 - 0 + 1)) <;> rfl

theorem randomFloatDist_unit (rng : Rng) : (randomFloatDist 0 1 rng).1 = (rng 0).r := by
  simp [randomFloatDist]

theorem stream_uint (P : Draw → Prop) (lo hi : Nat) (rng : Rng) (h : ∀ n, P (rng n)) :
    ∀ n, P ((randomUIntDist lo hi rng).2 n) :=
  fun n => h (n + 1)

theorem stream_float (P : Draw → Prop) (lo hi : ℚ) (rng : Rng) (h : ∀ n, P (rng n)) :
    ∀ n, P ((randomFloatDist lo hi rng).2 n) :=
  fun n => h (n + 1)

theorem crossing_step (pair0 : Nat × Nat) (rng : Rng) (prob : ℚ) :
    ∃ k, k ≤ 31 ∧
      ((if prob < CROSSING_CHANCE then cross pair0 rng else (pair0, rng)).1 = crossAt k pair0 ∨
        (if prob < CROSSING_CHANCE then cross pair0 rng else (pair0, rng)).1 = pair0) ∧
      ∀ P : Draw → Prop, (∀ n, P (rng n)) →
        ∀ n, P ((if prob < CROSSING_CHANCE then cross pair0 rng else (pair0, rng)).2 n) := by
  by_cases h : prob < CROSSING_CHANCE
  · rw [if_pos h]
    exact ⟨_, draw_le rng, Or.inl (cross_fst pair0 rng), fun P hP n => hP (n + 1)⟩
  · rw [if_neg h]
    exact ⟨0, by decide, Or.inr rfl, fun P hP n => hP n⟩

theorem mutation_step (g : Nat) (rng : Rng) (prob : ℚ) :
    ((if prob < MUTATION_CHANCE then mutate g rng else (g, rng)).1 = g ∨
      ∃ r, r ≤ 31 ∧ (if prob < MUTATION_CHANCE then mutate g rng else (g, rng)).1 = mutateAt r g) ∧
    (¬ prob < MUTATION_CHANCE →
      (if prob < MUTATION_CHANCE then mutate g rng else (g, rng)).1 = g) ∧
    ∀ P : Draw → Prop, (∀ n, P (rng n)) →
      ∀ n, P ((if prob < MUTATION_CHANCE then mutate g rng else (g, rng)).2 n) := by
  by_cases h : prob < MUTATION_CHANCE
  · rw [if_pos h]
    exact ⟨Or.inr ⟨_, draw_le rng, mutate_fst g rng⟩, fun hn => absurd h hn,
      fun P hP n => hP (n + 1)⟩
  · rw [if_neg h]
    exact ⟨Or.inl rfl, fun _ => rfl, fun P hP n => hP n⟩

theorem pairAtCoin_spec (viaDouble : Nat → Nat) (p : Population) (hne : p ≠ [])
    (hlt : p.length < 2 ^ 32) (c : Nat) (rng : Rng) :
    ∃ o, o ∈ p ∧ ∃ k, k ≤ 31 ∧ ∃ b1 b2 first second rng7,
      pairAtCoin viaDouble p c rng = Except.ok ((first, second), rng7) ∧
      ((b1, b2) = crossAt k (viaDouble c, o) ∨ (b1, b2) = (viaDouble c, o)) ∧
      (first = b1 ∨ ∃ r, r ≤ 31 ∧ first = mutateAt r b1) ∧
      (second = b2 ∨ ∃ r, r ≤ 31 ∧ second = mutateAt r b2) ∧
      ((∀ n, ¬ (rng n).r < MUTATION_CHANCE) → first = b1 ∧ second = b2) ∧
      (∀ P : Draw → Prop, (∀ n, P (rng n)) → ∀ n, P (rng7 n)) := by
  have hidx := randomParent_lt p hne hlt rng
  refine ⟨p.get ⟨_, hidx⟩, List.get_mem _ _ _, ?_⟩
  simp only [pairAtCoin, vectorAt_ok p _ hidx]
  obtain ⟨k, hk, hR, hPR⟩ := crossing_step (viaDouble c, p.get ⟨_, hidx⟩)
    (randomFloatDist 0 1 (randomUIntDist 0 (usub p.length 1) rng).2).2
    (randomFloatDist 0 1 (randomUIntDist 0 (usub p.length 1) rng).2).1
  refine ⟨k, hk, _, _, _, _, _, rfl, hR, ?_, ?_, ?_, ?_⟩
  · exact (mutation_step _ _ _).1
  · exact (mutation_step _ _ _).1
  · intro hno
    have h3 := hPR (fun d => ¬ d.r < MUTATION_CHANCE)
      (stream_float (fun d => ¬ d.r < MUTATION_CHANCE) 0 1 _
        (stream_uint (fun d => ¬ d.r < MUTATION_CHANCE) _ _ rng hno))
    have h4 := stream_float (fun d => ¬ d.r < MUTATION_CHANCE) 0 1 _ h3
    constructor
    · apply (mutation_step _ _ _).2.1
      rw [randomFloatDist_unit]
      exact h3 0
    · apply (mutation_step _ _ _).2.1
      rw [randomFloatDist_unit]
      exact h4 0
  · intro P hP
    have h3 := hPR P (stream_float P 0 1 _ (stream_uint P _ _ rng hP))
    have h5 := stream_float P 0 1 _ (stream_float P 0 1 _ h3)
    exact (mutation_step _ _ _).2.2 P ((mutation_step _ _ _).2.2 P h5)

theorem reproduce_spec (viaDouble : Nat → Nat) (p : Population) (hne : p ≠ [])
    (hlt : p.length < 2 ^ 32) (c : Nat) (rng : Rng) :
    ∃ s rng1, reproduce viaDouble p c rng = Except.ok (s, rng1) ∧
      (∃ o, o ∈ p ∧ ∃ k, k ≤ 31 ∧ ∃ base, base ∈ pairMembers viaDouble c o k ∧
        (s = base ∨ ∃ r, r ≤ 31 ∧ s = mutateAt r base) ∧
        ((∀ n, ¬ (rng n).r < MUTATION_CHANCE) → s = base)) ∧
      (∀ P : Draw → Prop, (∀ n, P (rng n)) → ∀ n, P (rng1 n)) := by
  obtain ⟨o, ho, k, hk, b1, b2, first, second, rng7, hpair, hb, hf, hs, hno, hP⟩ :=
    pairAtCoin_spec viaDouble p hne hlt c rng
  have hb1 : b1 ∈ pairMembers viaDouble c o k := by
    rcases hb with h | h
    · have := congrArg Prod.fst h
      simp only at this
      simp [pairMembers, this]
    · have := congrArg Prod.fst h
      simp only at this
      simp [pairMembers, this]
  have hb2 : b2 ∈ pairMembers viaDouble c o k := by
    rcases hb with h | h
    · have := congrArg Prod.snd h
      simp only at this
      simp [pairMembers, this]
    · have := congrArg Prod.snd h
      simp only at this
      simp [pairMembers, this]
  rw [reproduce_eq, hpair]
  refine ⟨_, _, rfl, ?_, fun P h => stream_float P 0 1 rng7 (hP P h)⟩
  by_cases hcoin : (randomFloatDist 0 1 rng7).1 < 1 / 2
  · simp only [if_pos hcoin]
    exact ⟨o, ho, k, hk, b1, hb1, hf, fun h => (hno h).1⟩
  · simp only [if_neg hcoin]
    exact ⟨o, ho, k, hk, b2, hb2, hs, fun h => (hno h).2⟩

theorem reproduceAll_spec (viaDouble : Nat → Nat) (p : Population) (hne : p ≠ [])
    (hlt : p.length < 2 ^ 32) (pool : List Nat) (hpool : ∀ c ∈ pool, c ∈ p) (rng : Rng) :
    ∃ nextP rng1, reproduceAll viaDouble p pool rng = Except.ok (nextP, rng1) ∧
      nextP.length = pool.length ∧
      (∀ s ∈ nextP, ∃ c, c ∈ p ∧ ∃ o, o ∈ p ∧ ∃ k, k ≤ 31 ∧
        ∃ base, base ∈ pairMembers viaDouble c o k ∧
          (s = base ∨ ∃ r, r ≤ 31 ∧ s = mutateAt r base) ∧
          ((∀ n, ¬ (rng n).r < MUTATION_CHANCE) → s = base)) ∧
      (∀ P : Draw → Prop, (∀ n, P (rng n)) → ∀ n, P (rng1 n)) := by
  induction pool generalizing rng with
  | nil => exact ⟨[], rng, rfl, rfl, fun s hs => absurd hs (List.not_mem_nil s), fun _ h => h⟩
  | cons ch rest ih =>
    obtain ⟨s0, rng1, h1, ⟨o, ho, k, hk, base, hbase, hs0, hno0⟩, hP1⟩ :=
      reproduce_spec viaDouble p hne hlt ch rng
    obtain ⟨nextP, rng2, h2, hlen, hall, hP2⟩ :=
      ih (fun c hc => hpool c (List.mem_cons_of_mem _ hc)) rng1
    refine ⟨s0 :: nextP, rng2, ?_, by simp [hlen], ?_, fun P h => hP2 P (hP1 P h)⟩
    · simp only [reproduceAll, h1, h2]
    · intro s hs
      rcases List.mem_cons.mp hs with h | h
      · rw [h]
        exact ⟨ch, hpool ch (List.mem_cons_self _ _), o, ho, k, hk, base, hbase, hs0, hno0⟩
      · obtain ⟨c, hc, o1, ho1, k1, hk1, base1, hbase1, hs1, hno1⟩ := hall s h
        exact ⟨c, hc, o1, ho1, k1, hk1, base1, hbase1, hs1,
          fun hno => hno1 (hP1 (fun d => ¬ d.r < MUTATION_CHANCE) hno)⟩

theorem selectParents_stream (env : FloatEnv) (p : Population) (dist : List FloatVal) (n : Nat)
    (rng : Rng) (pool : List Nat) (rng1 : Rng)
    (h : selectParents env p dist n rng = Except.ok (pool, rng1))
    (P : Draw → Prop) (hP : ∀ i, P (rng i)) : ∀ i, P (rng1 i) := by
  induction n generalizing rng pool with
  | zero =>
    simp only [selectParents] at h
    have h1 := Except.ok.inj h
    have h2 : rng = rng1 := congrArg Prod.snd h1
    rw [← h2]
    exact hP
  | succ n ih =>
    simp only [selectParents] at h
    cases hv : vectorAt p (usub (spinWheel env dist (randomFloatDist 0 1 rng).1) 1) with
    | error e =>
      rw [hv] at h
      cases h
    | ok ch =>
      rw [hv] at h
      cases hrec : selectParents env p dist n (randomFloatDist 0 1 rng).2 with
      | error e =>
        rw [hrec] at h
        cases h
      | ok res =>
        obtain ⟨rest, rng2⟩ := res
        rw [hrec] at h
        have h1 := Except.ok.inj h
        have h2 : rng2 = rng1 := congrArg Prod.snd h1
        subst h2
        exact ih (randomFloatDist 0 1 rng).2 rest hrec (stream_float P 0 1 rng hP)

theorem nextPopulation_spec (env : FloatEnv) (viaDouble : Nat → Nat) (p : Population)
    (rng : Rng) (hne : p ≠ []) (hlt : p.length < 2 ^ 32) :
    ∃ nextP rng1, nextPopulation env viaDouble p rng = Except.ok (nextP, rng1) ∧
      nextP.length = p.length ∧
      ∀ s ∈ nextP, ∃ c, c ∈ p ∧ ∃ o, o ∈ p ∧ ∃ k, k ≤ 31 ∧
        ∃ base, base ∈ pairMembers viaDouble c o k ∧
          (s = base ∨ ∃ r, r ≤ 31 ∧ s = mutateAt r base) ∧
          ((∀ n, ¬ (rng n).r < MUTATION_CHANCE) → s = base) := by
  have hguard : ¬ UINT_RANGE ≤ p.length := by
    unfold UINT_RANGE
    omega
  obtain ⟨pool, rng1, h1, hlen1, hmem⟩ :=
    selectParents_ok env p (distribution env p (accumulate env (p.map toFloat) 0))
      (distribution_length env p _) hne hlt p.length rng
  obtain ⟨nextP, rng2, h2, hlen2, hall, _⟩ := reproduceAll_spec viaDouble p hne hlt pool hmem rng1
  refine ⟨nextP, rng2, ?_, by rw [hlen2, hlen1], ?_⟩
  · simp only [nextPopulation, if_neg hguard, h1, h2]
  · intro s hs
    obtain ⟨c, hc, o, ho, k, hk, base, hbase, hs1, hno1⟩ := hall s hs
    exact ⟨c, hc, o, ho, k, hk, base, hbase, hs1,
      fun hno => hno1 (selectParents_stream env p _ _ rng pool rng1 h1
        (fun d => ¬ d.r < MUTATION_CHANCE) hno)⟩

/-! ## The seeded scenario `{1.0, 1.0, 1.0}` -/

theorem toFloat_one : toFloat 0x3F800000 = FloatVal.fin 1 := by
  norm_num [toFloat]

theorem toFloat_minus_one : toFloat 0xBF800000 = FloatVal.fin (-1) := by
  norm_num [toFloat]

theorem constRng_advance (u : Nat) (r : ℚ) : (constRng u r).advance = constRng u r := rfl

theorem randomFloatDist_const (u : Nat) (r : ℚ) :
    randomFloatDist 0 1 (constRng u r) = (r, constRng u r) := by
  show (0 + (1 - 0) * r, (constRng u r).advance) = (r, constRng u r)
  rw [constRng_advance, sub_zero, one_mul, zero_add]

theorem randomUIntDist_const (lo hi u : Nat) (r : ℚ) :
    randomUIntDist lo hi (constRng u r) = (lo + u % (hi - lo + 1), constRng u r) := rfl

theorem selectParents_const (env : FloatEnv) (p : Population) (dist : List FloatVal)
    (hd : dist.length = p.length) (hne : p ≠ []) (hlt : p.length < 2 ^ 32) (g : Nat)
    (hp : ∀ x ∈ p, x = g) (u : Nat) (r : ℚ) (n : Nat) :
    selectParents env p dist n (constRng u r) =
      Except.ok (List.replicate n g, constRng u r) := by
  induction n with
  | zero => rfl
  | succ n ih =>
    have hdne : dist ≠ [] := by
      intro h0
      rw [h0] at hd
      exact hne (List.length_eq_zero.mp hd.symm)
    obtain ⟨hw1, hw2⟩ := spinWheel_bounds env dist r hdne
    have hidx : usub (spinWheel env dist r) 1 < p.length := by
      rw [usub_one _ hw1 (by omega)]
      omega
    have hget : p.get ⟨_, hidx⟩ = g := hp _ (List.get_mem _ _ _)
    simp only [selectParents, randomFloatDist_const, vectorAt_ok p _ hidx, hget, ih,
      List.replicate]

theorem cross_const (pair : Nat × Nat) (u : Nat) (r : ℚ) :
    cross pair (constRng u r) =
      (crossAt (0 + u % (FLOAT_SIZE - 1 - 0 + 1)) pair, constRng u r) := rfl

theorem mutate_const (g u : Nat) (r : ℚ) :
    mutate g (constRng u r) = (mutateAt (0 + u % (FLOAT_SIZE - 1 - 0 + 1)) g, constRng u r) := rfl

theorem reproduce_const (viaDouble : Nat → Nat) (p : Population) (c o u : Nat) (r : ℚ)
    (ho : vectorAt p (0 + u % (usub p.length 1 - 0 + 1)) = Except.ok o)
    (hc : r < CROSSING_CHANCE) (hm : r < MUTATION_CHANCE) (hcoin : r < 1 / 2) :
    reproduce viaDouble p c (constRng u r) =
      Except.ok (mutateAt (0 + u % (FLOAT_SIZE - 1 - 0 + 1))
        (crossAt (0 + u % (FLOAT_SIZE - 1 - 0 + 1)) (viaDouble c, o)).1, constRng u r) := by
  unfold reproduce
  simp only [randomUIntDist_const, ho, randomFloatDist_const, if_pos hc, cross_const, if_pos hm,
    mutate_const, if_pos hcoin]

theorem sign_flip_of_one :
    mutateAt (0 + 0 % (FLOAT_SIZE - 1 - 0 + 1))
      (crossAt (0 + 0 % (FLOAT_SIZE - 1 - 0 + 1)) (id 0x3F800000, 0x3F800000)).1 = 0xBF800000 := by
  decide

theorem reproduce_ones_zero :
    reproduce id [0x3F800000, 0x3F800000, 0x3F800000] 0x3F800000 (constRng 0 0) =
      Except.ok (0xBF800000, constRng 0 0) := by
  rw [reproduce_const id [0x3F800000, 0x3F800000, 0x3F800000] 0x3F800000 0x3F800000 0 0 rfl
    (by norm_num [CROSSING_CHANCE]) (by norm_num [MUTATION_CHANCE]) (by norm_num),
    sign_flip_of_one]

theorem nextPopulation_ones_zero (env : FloatEnv) :
    nextPopulation env id [0x3F800000, 0x3F800000, 0x3F800000] (constRng 0 0) =
      Except.ok ([0xBF800000, 0xBF800000, 0xBF800000], constRng 0 0) := by
  have hguard : ¬ UINT_RANGE ≤ ([0x3F800000, 0x3F800000, 0x3F800000] : Population).length := by
    decide
  have hlen : ([0x3F800000, 0x3F800000, 0x3F800000] : Population).length = 3 := rfl
  have hsel := selectParents_const env [0x3F800000, 0x3F800000, 0x3F800000]
    (distribution env [0x3F800000, 0x3F800000, 0x3F800000]
      (accumulate env (([0x3F800000, 0x3F800000, 0x3F800000] : Population).map toFloat) 0))
    (distribution_length env _ _) (by simp) (by decide) 0x3F800000 (by simp) 0 0 3
  unfold nextPopulation
  simp only [if_neg hguard]
  rw [hlen, hsel]
  simp only [List.replicate, reproduceAll, reproduce_ones_zero]

theorem quieted_then_flipped :
    mutateAt (0 + 10 % (FLOAT_SIZE - 1 - 0 + 1))
      (crossAt (0 + 10 % (FLOAT_SIZE - 1 - 0 + 1)) (ieeeViaDouble 0x7F800001, 0x7F800001)).1 =
      0x7FE00001 := by
  decide

theorem reproduce_signalling :
    reproduce ieeeViaDouble [0x7F800001] 0x7F800001 (constRng 10 0) =
      Except.ok (0x7FE00001, constRng 10 0) := by
  rw [reproduce_const ieeeViaDouble [0x7F800001] 0x7F800001 0x7F800001 10 0 rfl
    (by norm_num [CROSSING_CHANCE]) (by norm_num [MUTATION_CHANCE]) (by norm_num),
    quieted_then_flipped]

theorem nextPopulation_signalling (env : FloatEnv) :
    nextPopulation env ieeeViaDouble [0x7F800001] (constRng 10 0) =
      Except.ok ([0x7FE00001], constRng 10 0) := by
  have hguard : ¬ UINT_RANGE ≤ ([0x7F800001] : Population).length := by
    decide
  have hlen : ([0x7F800001] : Population).length = 1 := rfl
  have hsel := selectParents_const env [0x7F800001]
    (distribution env [0x7F800001]
      (accumulate env (([0x7F800001] : Population).map toFloat) 0))
    (distribution_length env _ _) (by simp) (by decide) 0x7F800001 (by simp) 10 0 1
  unfold nextPopulation
  simp only [if_neg hguard]
  rw [hlen, hsel]
  simp only [List.replicate, reproduceAll, reproduce_signalling]

theorem isEnoughPrecise_minus_one : isEnoughPrecise 1 (1 / 2) 0xBF800000 = false := by
  simp only [isEnoughPrecise, toFloat_minus_one, FloatVal.le]
  norm_num

theorem isEnoughPrecise_one : isEnoughPrecise 1 (1 / 2) 0x3F800000 = true := by
  simp only [isEnoughPrecise, toFloat_one, FloatVal.le]
  norm_num

/-! ## One pass of the driver loop -/

theorem mainLoop_stops (env : FloatEnv) (viaDouble : Nat → Nat) (maximum precision : ℚ)
    (fuel index : Nat) (p p1 : Population) (rng rng1 : Rng)
    (hok : nextPopulation env viaDouble p rng = Except.ok (p1, rng1))
    (hloop : loopContinues maximum precision p1 = false) :
    mainLoop env viaDouble maximum precision (fuel + 1) index p rng =
      Except.ok ((index + 1) % UINT_RANGE, p1) := by
  rw [mainLoop]
  simp only [hok, hloop, Bool.false_eq_true, if_false]

theorem mainLoop_goes_on (env : FloatEnv) (viaDouble : Nat → Nat) (maximum precision : ℚ)
    (fuel index : Nat) (p p1 : Population) (rng rng1 : Rng)
    (hok : nextPopulation env viaDouble p rng = Except.ok (p1, rng1))
    (hloop : loopContinues maximum precision p1 = true) :
    mainLoop env viaDouble maximum precision (fuel + 1) index p rng =
      mainLoop env viaDouble maximum precision fuel ((index + 1) % UINT_RANGE) p1 rng1 := by
  rw [mainLoop]
  simp only [hok, hloop, if_true]

/-! ## The conversion through `double` -/

theorem ieeeViaDouble_of_not_signaling (g : Nat) (h : isSignalingNaN g = false) :
    ieeeViaDouble g = g := by
  simp [ieeeViaDouble, h]

theorem ieeeViaDouble_lt (g : Nat) (h : g < 2 ^ 32) : ieeeViaDouble g < 2 ^ 32 := by
  unfold ieeeViaDouble
  split
  · exact Nat.or_lt_two_pow h (by decide)
  · exact h

theorem reproduce_plain (viaDouble : Nat → Nat) (p : Population) (c o : Nat) (rng : Rng)
    (hother : vectorAt p (randomUIntDist 0 (usub p.length 1) rng).1 = Except.ok o)
    (hcross : ¬ (rng 1).r < CROSSING_CHANCE)
    (hmutA : ¬ (rng 2).r < MUTATION_CHANCE) (hmutB : ¬ (rng 3).r < MUTATION_CHANCE) :
    pairAtCoin viaDouble p c rng =
      Except.ok ((viaDouble c, o), rng.advance.advance.advance.advance) ∧
    reproduce viaDouble p c rng =
      Except.ok (if (rng 4).r < 1 / 2 then viaDouble c else o,
        rng.advance.advance.advance.advance.advance) := by
  have hpair : pairAtCoin viaDouble p c rng =
      Except.ok ((viaDouble c, o), rng.advance.advance.advance.advance) := by
    simp only [pairAtCoin, hother]
    simp [randomFloatDist, randomUIntDist, Rng.advance, hcross, hmutA, hmutB]
  refine ⟨hpair, ?_⟩
  rw [reproduce_eq, hpair]
  simp [randomFloatDist, Rng.advance]

theorem near_pair_member (viaDouble : Nat → Nat) (c o k base s : Nat)
    (hc : viaDouble c < 2 ^ 32) (ho : o < 2 ^ 32) (hk : k ≤ 31)
    (hbase : base ∈ pairMembers viaDouble c o k)
    (hsb : s = base ∨ ∃ r, r ≤ 31 ∧ s = mutateAt r base) :
    s < 2 ^ 32 ∧ ∃ x, x ∈ [viaDouble c, o] ∧ ∃ y, y ∈ [viaDouble c, o] ∧
      hammingDistance s
        ((x &&& generateCrossMask k) ||| (y &&& unot (generateCrossMask k))) ≤ 1 := by
  have hnear : ∀ m, base = m → hammingDistance s m ≤ 1 := by
    intro m hm
    rw [← hm]
    rcases hsb with h | ⟨r, hr, h⟩
    · rw [h, hammingDistance_self]
      exact Nat.zero_le 1
    · rw [h, mutateAt_eq r base hr, hammingDistance_comm,
        hammingDistance_flip base (31 - r) (by omega)]
  have hsmall : base < 2 ^ 32 → s < 2 ^ 32 := by
    intro hb
    rcases hsb with h | ⟨r, hr, h⟩
    · rw [h]
      exact hb
    · rw [h, mutateAt_eq r base hr]
      exact Nat.xor_lt_two_pow hb (Nat.pow_lt_pow_right (by decide) (by omega))
  rw [pairMembers] at hbase
  simp only [List.mem_cons, List.mem_singleton, List.not_mem_nil, or_false] at hbase
  rcases hbase with h | h | h | h
  · exact ⟨hsmall (h ▸ (crossAt_lt (viaDouble c) o k hk).1), viaDouble c, by simp, o, by simp,
      hnear _ h⟩
  · exact ⟨hsmall (h ▸ (crossAt_lt (viaDouble c) o k hk).2), o, by simp, viaDouble c, by simp,
      hnear _ h⟩
  · exact ⟨hsmall (h ▸ hc), viaDouble c, by simp, viaDouble c, by simp,
      hnear _ (h.trans (mix_self (viaDouble c) k hc hk).symm)⟩
  · exact ⟨hsmall (h ▸ ho), o, by simp, o, by simp,
      hnear _ (h.trans (mix_self o k ho hk).symm)⟩

theorem hammingDistance_quieted_flipped : hammingDistance 0x7FE00001 0x7F800001 = 2 := by
  decide

/-! ## The claims -/

/-- C1: with drawn breakpoint `k`, `cross` returns `childA = (a AND m) OR (b AND NOT m)` and
`childB = (b AND m) OR (a AND NOT m)` for `m = generateCrossMask k`; the `k` most significant
bits of `childA` are those of `a` and its `32 - k` low bits those of `b`, and conversely for
`childB`; both children are 32-bit patterns. -/
theorem cross_splits_at_breakpoint (a b k : Nat) (rng : Rng)
    (hdraw : (randomUIntDist 0 (FLOAT_SIZE - 1) rng).1 = k) :
    k ≤ 31 ∧
    (cross (a, b) rng).1.1 =
      (a &&& generateCrossMask k) ||| (b &&& unot (generateCrossMask k)) ∧
    (cross (a, b) rng).1.2 =
      (b &&& generateCrossMask k) ||| (a &&& unot (generateCrossMask k)) ∧
    (∀ i, i < 32 →
      (cross (a, b) rng).1.1.testBit i = if 32 - k ≤ i then a.testBit i else b.testBit i) ∧
    (∀ i, i < 32 →
      (cross (a, b) rng).1.2.testBit i = if 32 - k ≤ i then b.testBit i else a.testBit i) ∧
    (cross (a, b) rng).1.1 < 2 ^ 32 ∧ (cross (a, b) rng).1.2 < 2 ^ 32 := by
  have hk : k ≤ 31 := hdraw ▸ draw_le rng
  rw [cross_fst, hdraw]
  exact ⟨hk, rfl, rfl, crossAt_fst_testBit a b k hk, crossAt_snd_testBit a b k hk,
    (crossAt_lt a b k hk).1, (crossAt_lt a b k hk).2⟩

/-- C1 (witness): breakpoint 16 on the patterns of `1.0` and `2.0`. -/
theorem cross_splits_at_breakpoint_witness :
    (randomUIntDist 0 (FLOAT_SIZE - 1) (constRng 16 0)).1 = 16 ∧
    (16 ≤ 31 ∧
    (cross (0x3F800000, 0x40000000) (constRng 16 0)).1.1 =
      (0x3F800000 &&& generateCrossMask 16) ||| (0x40000000 &&& unot (generateCrossMask 16)) ∧
    (cross (0x3F800000, 0x40000000) (constRng 16 0)).1.2 =
      (0x40000000 &&& generateCrossMask 16) ||| (0x3F800000 &&& unot (generateCrossMask 16)) ∧
    (∀ i, i < 32 →
      (cross (0x3F800000, 0x40000000) (constRng 16 0)).1.1.testBit i =
        if 32 - 16 ≤ i then (0x3F800000 : Nat).testBit i else (0x40000000 : Nat).testBit i) ∧
    (∀ i, i < 32 →
      (cross (0x3F800000, 0x40000000) (constRng 16 0)).1.2.testBit i =
        if 32 - 16 ≤ i then (0x40000000 : Nat).testBit i else (0x3F800000 : Nat).testBit i) ∧
    (cross (0x3F800000, 0x40000000) (constRng 16 0)).1.1 < 2 ^ 32 ∧
    (cross (0x3F800000, 0x40000000) (constRng 16 0)).1.2 < 2 ^ 32) :=
  ⟨rfl, cross_splits_at_breakpoint 0x3F800000 0x40000000 16 (constRng 16 0) rfl⟩

/-- C2: for `k` in `[0, 31]`, `generateCrossMask k` equals `2 ^ 32 - 2 ^ (32 - k)`, its set
bits are exactly the positions `31` down to `32 - k`, there are exactly `k` of them, and
`generateCrossMask 0 = 0`. -/
theorem generateCrossMask_shape (k : Nat) (hk : k ≤ 31) :
    generateCrossMask k = 2 ^ 32 - 2 ^ (32 - k) ∧
    (∀ i, (generateCrossMask k).testBit i = true ↔ 32 - k ≤ i ∧ i ≤ 31) ∧
    popCount (generateCrossMask k) = k ∧
    generateCrossMask 0 = 0 := by
  refine ⟨generateCrossMask_closed k hk, ?_, popCount_generateCrossMask k hk, rfl⟩
  intro i
  rw [generateCrossMask_testBit k hk, decide_eq_true_iff]
  omega

/-- C2 (witness): the mask of breakpoint 16. -/
theorem generateCrossMask_shape_witness :
    16 ≤ 31 ∧
    (generateCrossMask 16 = 2 ^ 32 - 2 ^ (32 - 16) ∧
    (∀ i, (generateCrossMask 16).testBit i = true ↔ 32 - 16 ≤ i ∧ i ≤ 31) ∧
    popCount (generateCrossMask 16) = 16 ∧
    generateCrossMask 0 = 0) :=
  ⟨by decide, generateCrossMask_shape 16 (by decide)⟩

/-- C3: with drawn bit index `r`, `mutate` flips bit `31 - r` of the 32-bit pattern `g` and
leaves every other bit unchanged, so the result is at Hamming distance exactly 1. -/
theorem mutate_flips_one_bit (g r : Nat) (rng : Rng) (hg : g < 2 ^ 32)
    (hdraw : (randomUIntDist 0 (FLOAT_SIZE - 1) rng).1 = r) :
    r ≤ 31 ∧
    (mutate g rng).1.testBit (31 - r) = !g.testBit (31 - r) ∧
    (∀ i, i ≠ 31 - r → (mutate g rng).1.testBit i = g.testBit i) ∧
    hammingDistance g (mutate g rng).1 = 1 ∧
    (mutate g rng).1 < 2 ^ 32 := by
  have hr : r ≤ 31 := hdraw ▸ draw_le rng
  rw [mutate_fst, hdraw, mutateAt_eq r g hr]
  refine ⟨hr, ?_, ?_, hammingDistance_flip g (31 - r) (by omega), ?_⟩
  · rw [Nat.testBit_xor, Nat.testBit_two_pow_self]
    cases g.testBit (31 - r) <;> rfl
  · intro i hi
    rw [Nat.testBit_xor, Nat.testBit_two_pow_of_ne (Ne.symm hi)]
    cases g.testBit i <;> rfl
  · exact Nat.xor_lt_two_pow hg (Nat.pow_lt_pow_right (by decide) (by omega))

/-- C3 (witness): bit index 5 drawn for the pattern of `5.5`. -/
theorem mutate_flips_one_bit_witness :
    0x40B00000 < 2 ^ 32 ∧ (randomUIntDist 0 (FLOAT_SIZE - 1) (constRng 5 0)).1 = 5 ∧
    (5 ≤ 31 ∧
    (mutate 0x40B00000 (constRng 5 0)).1.testBit (31 - 5) = !(0x40B00000 : Nat).testBit (31 - 5) ∧
    (∀ i, i ≠ 31 - 5 →
      (mutate 0x40B00000 (constRng 5 0)).1.testBit i = (0x40B00000 : Nat).testBit i) ∧
    hammingDistance 0x40B00000 (mutate 0x40B00000 (constRng 5 0)).1 = 1 ∧
    (mutate 0x40B00000 (constRng 5 0)).1 < 2 ^ 32) :=
  ⟨by decide, rfl, mutate_flips_one_bit 0x40B00000 5 (constRng 5 0) (by decide) rfl⟩

/-- C4: at every bit position `i` of `[0, 31]` the two children of `cross` are complementary
selections: either `childA` has the bit of `a` and `childB` the bit of `b`, or `childA` has
the bit of `b` and `childB` the bit of `a`. -/
theorem cross_children_complementary (a b k : Nat) (rng : Rng)
    (hdraw : (randomUIntDist 0 (FLOAT_SIZE - 1) rng).1 = k) (i : Nat) (hi : i < 32) :
    ((cross (a, b) rng).1.1.testBit i = a.testBit i ∧
        (cross (a, b) rng).1.2.testBit i = b.testBit i) ∨
    ((cross (a, b) rng).1.1.testBit i = b.testBit i ∧
        (cross (a, b) rng).1.2.testBit i = a.testBit i) := by
  have hk : k ≤ 31 := hdraw ▸ draw_le rng
  rw [cross_fst, hdraw, crossAt_fst_testBit a b k hk i hi, crossAt_snd_testBit a b k hk i hi]
  by_cases h : 32 - k ≤ i
  · left; simp [h]
  · right; simp [h]

/-- C4 (witness): breakpoint 16 on the patterns of `1.0` and `2.0`, bit 30. -/
theorem cross_children_complementary_witness :
    (randomUIntDist 0 (FLOAT_SIZE - 1) (constRng 16 0)).1 = 16 ∧ 30 < 32 ∧
    (((cross (0x3F800000, 0x40000000) (constRng 16 0)).1.1.testBit 30 =
          (0x3F800000 : Nat).testBit 30 ∧
        (cross (0x3F800000, 0x40000000) (constRng 16 0)).1.2.testBit 30 =
          (0x40000000 : Nat).testBit 30) ∨
      ((cross (0x3F800000, 0x40000000) (constRng 16 0)).1.1.testBit 30 =
          (0x40000000 : Nat).testBit 30 ∧
        (cross (0x3F800000, 0x40000000) (constRng 16 0)).1.2.testBit 30 =
          (0x3F800000 : Nat).testBit 30)) :=
  ⟨rfl, by decide,
    cross_children_complementary 0x3F800000 0x40000000 16 (constRng 16 0) rfl 30 (by decide)⟩

/-- C5: for every previous population whose size is a `uint` value, every sequence of random
draws, every rounding of the float arithmetic and every conversion through `double`,
`nextPopulation` returns a population with exactly as many genomes; the empty population
yields the empty population. -/
theorem nextPopulation_preserves_size (env : FloatEnv) (viaDouble : Nat → Nat) (p : Population)
    (rng : Rng) (hlt : p.length < 2 ^ 32) :
    (∃ nextP rng1, nextPopulation env viaDouble p rng = Except.ok (nextP, rng1) ∧
      nextP.length = p.length) ∧
    nextPopulation env viaDouble [] rng = Except.ok ([], rng) :=
  ⟨nextPopulation_ok env viaDouble p rng hlt, nextPopulation_nil env viaDouble rng⟩


/-- C5 (witness): the population made of a NaN, an infinity and about `2.02e20`, whose sum is
no `int` value. -/
theorem nextPopulation_preserves_size_witness :
    ([0x7FC00000, 0x7F800000, 0x612F377F] : Population).length < 2 ^ 32 ∧
    ((∃ nextP rng1,
      nextPopulation ieeeEnv ieeeViaDouble [0x7FC00000, 0x7F800000, 0x612F377F]
          (constRng 0 0) = Except.ok (nextP, rng1) ∧
        nextP.length = ([0x7FC00000, 0x7F800000, 0x612F377F] : Population).length) ∧
    nextPopulation ieeeEnv ieeeViaDouble [] (constRng 0 0) = Except.ok ([], constRng 0 0)) :=
  ⟨by decide,
    nextPopulation_preserves_size ieeeEnv ieeeViaDouble [0x7FC00000, 0x7F800000, 0x612F377F]
      (constRng 0 0) (by decide)⟩


/-- C6 (the code at the failing input `{5.5, 5.5}`): the summation of step #1 yields 10 and
not 11, so each weight is `5.5 / 10` instead of `5.5 / 11`: `11/20` in exact arithmetic, the
`float` `0x3F0CCCCD` in binary32 arithmetic. The weights are not `1/2` and do not add up
to 1. -/
theorem distribution_truncated_sum :
    toFloat 0x40B00000 = FloatVal.fin (11 / 2) ∧
    accumulate exactEnv ([0x40B00000, 0x40B00000].map toFloat) 0 = 10 ∧
    distribution exactEnv [0x40B00000, 0x40B00000] 10 =
      [FloatVal.fin (11 / 20), FloatVal.fin (11 / 20)] ∧
    (11 / 20 : ℚ) ≠ (11 / 2) / (11 / 2 + 11 / 2) ∧ (11 / 20 : ℚ) + 11 / 20 ≠ 1 ∧
    accumulate ieeeEnv ([0x40B00000, 0x40B00000].map toFloat) 0 = 10 ∧
    distribution ieeeEnv [0x40B00000, 0x40B00000] 10 =
      [toFloat 0x3F0CCCCD, toFloat 0x3F0CCCCD] ∧
    toFloat 0x3F0CCCCD = FloatVal.fin (9227469 / 16777216) ∧
    (9227469 / 16777216 : ℚ) ≠ (11 / 2) / (11 / 2 + 11 / 2) ∧
    (9227469 / 16777216 : ℚ) + 9227469 / 16777216 ≠ 1 := by
  refine ⟨toFloat_five_and_half, accumulate_five_and_half, ?_, by norm_num, by norm_num,
    accumulate_five_and_half_ieee, ?_, toFloat_weight, by norm_num, by norm_num⟩
  · simp only [distribution, List.map, toFloat_five_and_half, FloatEnv.quotient,
      FloatEnv.ofInt, exactEnv, FloatVal.rounded, FloatVal.div]
    norm_num
  · rw [toFloat_weight]
    exact distribution_five_and_half_ieee


/-- C8 (as stated, refuted): the loop condition does not test the objective value. With
`f y = y ^ 7 + y ^ 5`, target `f 20`, tolerance `1/10` and the population `{20.0}`, the genome
has `f 20` within tolerance of the target and the loop goes on all the same. -/
theorem loop_ignores_objective :
    ¬ ∀ (f : ℚ → ℚ) (M eps : ℚ) (p : Population),
      loopContinues M eps p = false ↔
        ∃ g ∈ p, ∃ v, toFloat g = FloatVal.fin v ∧ M - eps ≤ f v ∧ f v ≤ M + eps := by
  intro h
  have h1 := (h (fun y => y ^ 7 + y ^ 5) 1283200000 (1 / 10) [0x41A00000]).mpr
    ⟨0x41A00000, by simp, 20, toFloat_twenty, by norm_num, by norm_num⟩
  rw [loopContinues_eq_false_iff] at h1
  obtain ⟨g, hg, v, hv, hlo, _⟩ := h1
  rw [List.mem_singleton] at hg
  rw [hg, toFloat_twenty] at hv
  have hv20 : v = 20 := (FloatVal.fin.inj hv).symm
  rw [hv20] at hlo
  norm_num at hlo

/-- C8 (amended): the loop of `main` stops after a generation exactly when some genome of the
current population has a finite value `v` of its own, not `f v`, with
`maximum - precision ≤ v ≤ maximum + precision`. -/
theorem loop_stops_iff_raw_value_within_tolerance (maximum precision : ℚ) (p : Population) :
    loopContinues maximum precision p = false ↔
      ∃ g ∈ p, ∃ v, toFloat g = FloatVal.fin v ∧
        maximum - precision ≤ v ∧ v ≤ maximum + precision :=
  loopContinues_eq_false_iff maximum precision p

/-- C9 (as stated, refuted): there are no 32-bit parents and breakpoint of `[0, 31]` for which
the bitwise OR of the children of `cross` differs from the bitwise OR of the parents. -/
theorem cross_or_never_differs :
    ¬ ∃ a b k : Nat, a < 2 ^ 32 ∧ b < 2 ^ 32 ∧ k ≤ 31 ∧
      (crossAt k (a, b)).1 ||| (crossAt k (a, b)).2 ≠ a ||| b := by
  rintro ⟨a, b, k, ha, hb, hk, hne⟩
  exact hne (crossAt_or a b k ha hb hk)

/-- C9 (amended): for 32-bit parents `a`, `b` and every drawn breakpoint, the bitwise OR of the
two children of `cross` equals the bitwise OR of the two parents. -/
theorem cross_or_preserved (a b k : Nat) (rng : Rng) (ha : a < 2 ^ 32) (hb : b < 2 ^ 32)
    (hdraw : (randomUIntDist 0 (FLOAT_SIZE - 1) rng).1 = k) :
    (cross (a, b) rng).1.1 ||| (cross (a, b) rng).1.2 = a ||| b := by
  have hk : k ≤ 31 := hdraw ▸ draw_le rng
  rw [cross_fst, hdraw]
  exact crossAt_or a b k ha hb hk

/-- C9 (witness of the amended claim): breakpoint 4 on the patterns of `5.5` and `20.0`. -/
theorem cross_or_preserved_witness :
    0x40B00000 < 2 ^ 32 ∧ 0x41A00000 < 2 ^ 32 ∧
    (randomUIntDist 0 (FLOAT_SIZE - 1) (constRng 4 0)).1 = 4 ∧
    (cross (0x40B00000, 0x41A00000) (constRng 4 0)).1.1 |||
        (cross (0x40B00000, 0x41A00000) (constRng 4 0)).1.2 = 0x40B00000 ||| 0x41A00000 :=
  ⟨by decide, by decide, rfl,
    cross_or_preserved 0x40B00000 0x41A00000 4 (constRng 4 0) (by decide) (by decide) rfl⟩

/-- C10 (the code at the failing input `{0.5}`): the only genome value is strictly positive,
yet the divisor computed by step #1 is `0` and the weight is an infinity, in exact and in
binary32 arithmetic alike. -/
theorem positive_population_zero_divisor :
    toFloat 0x3F000000 = FloatVal.fin (1 / 2) ∧ (0 : ℚ) < 1 / 2 ∧
    accumulate exactEnv ([0x3F000000].map toFloat) 0 = 0 ∧
    distribution exactEnv [0x3F000000] 0 = [FloatVal.pinf] ∧
    accumulate ieeeEnv ([0x3F000000].map toFloat) 0 = 0 ∧
    distribution ieeeEnv [0x3F000000] 0 = [FloatVal.pinf] := by
  refine ⟨toFloat_half, by norm_num, accumulate_half, ?_, accumulate_half_ieee,
    distribution_half_ieee⟩
  simp only [distribution, List.map, toFloat_half, FloatEnv.quotient, FloatEnv.ofInt,
    exactEnv, FloatVal.rounded, FloatVal.div]
  norm_num


/-- C11 (as stated, refuted): with the seeded population `{1.0, 1.0, 1.0}`, target `1`,
tolerance `1/2` and a generator whose every draw is `(0, 0)`, each survivor of the first
generation is crossed, mutated in its sign bit and kept, under every rounding: the
population tested first is `{-1.0, -1.0, -1.0}`, the loop condition holds and the loop goes
on. -/
theorem first_test_fails_after_mutation :
    (∀ env : FloatEnv,
      nextPopulation env id [0x3F800000, 0x3F800000, 0x3F800000] (constRng 0 0) =
        Except.ok ([0xBF800000, 0xBF800000, 0xBF800000], constRng 0 0) ∧
      mainLoop env id 1 (1 / 2) 1 0 [0x3F800000, 0x3F800000, 0x3F800000] (constRng 0 0) =
        Except.error Fault.outOfFuel) ∧
    toFloat 0xBF800000 = FloatVal.fin (-1) ∧
    loopContinues 1 (1 / 2) [0xBF800000, 0xBF800000, 0xBF800000] = true := by
  have hloop : loopContinues 1 (1 / 2) [0xBF800000, 0xBF800000, 0xBF800000] = true := by
    simp only [loopContinues, List.find?, isEnoughPrecise_minus_one]
    rfl
  refine ⟨fun env => ⟨nextPopulation_ones_zero env, ?_⟩, toFloat_minus_one, hloop⟩
  rw [mainLoop_goes_on env id 1 (1 / 2) 0 0 _ _ _ _ (nextPopulation_ones_zero env) hloop]
  rfl


/-- C11 (amended): in the seeded scenario the driver tests the population returned by the
first call of `nextPopulation`. That population has three genomes, each `1.0` or `1.0` with
one bit flipped; if one of them is still `1.0` the first test succeeds and the loop stops
with `index = 1`; and when no draw is below `MUTATION_CHANCE` the population tested is
`{1.0, 1.0, 1.0}` itself. This holds under every rounding of the float arithmetic. -/
theorem first_test_succeeds_when_unmutated (env : FloatEnv) (viaDouble : Nat → Nat) (rng : Rng)
    (hconv : viaDouble 0x3F800000 = 0x3F800000) :
    ∃ nextP rng1,
      nextPopulation env viaDouble [0x3F800000, 0x3F800000, 0x3F800000] rng =
        Except.ok (nextP, rng1) ∧
      nextP.length = 3 ∧
      (∀ s ∈ nextP, s = 0x3F800000 ∨ ∃ r, r ≤ 31 ∧ s = mutateAt r 0x3F800000) ∧
      (0x3F800000 ∈ nextP →
        loopContinues 1 (1 / 2) nextP = false ∧
        ∀ fuel, mainLoop env viaDouble 1 (1 / 2) (fuel + 1) 0
          [0x3F800000, 0x3F800000, 0x3F800000] rng = Except.ok (1, nextP)) ∧
      ((∀ n, ¬ (rng n).r < MUTATION_CHANCE) →
        nextP = [0x3F800000, 0x3F800000, 0x3F800000]) := by
  obtain ⟨nextP, rng1, hok, hlen, hall⟩ :=
    nextPopulation_spec env viaDouble [0x3F800000, 0x3F800000, 0x3F800000] rng (by simp)
      (by decide)
  have hbase : ∀ s ∈ nextP, (s = 0x3F800000 ∨ ∃ r, r ≤ 31 ∧ s = mutateAt r 0x3F800000) ∧
      ((∀ n, ¬ (rng n).r < MUTATION_CHANCE) → s = 0x3F800000) := by
    intro s hs
    obtain ⟨c, hc, o, ho, k, hk, base, hb, hsb, hno⟩ := hall s hs
    have hc1 : c = 0x3F800000 := by simpa using hc
    have ho1 : o = 0x3F800000 := by simpa using ho
    have hb1 : base = 0x3F800000 := by
      rw [pairMembers, hc1, ho1, hconv, crossAt_self 0x3F800000 k (by decide) hk] at hb
      simpa using hb
    rw [hb1] at hsb hno
    exact ⟨hsb, hno⟩
  refine ⟨nextP, rng1, hok, hlen, fun s hs => (hbase s hs).1, ?_, ?_⟩
  · intro hmem
    have hloop : loopContinues 1 (1 / 2) nextP = false :=
      (loopContinues_eq_false_iff 1 (1 / 2) nextP).mpr
        ⟨0x3F800000, hmem, 1, toFloat_one, by norm_num, by norm_num⟩
    have hindex : (0 + 1) % UINT_RANGE = 1 := by decide
    refine ⟨hloop, fun fuel => ?_⟩
    rw [mainLoop_stops env viaDouble 1 (1 / 2) fuel 0 _ nextP rng rng1 hok hloop, hindex]
  · intro hno
    have h := List.eq_replicate_iff.mpr ⟨hlen, fun s hs => (hbase s hs).2 hno⟩
    rw [h]
    rfl


/-- C11 (witness of the amended claim): binary32 arithmetic, the IEEE-754 conversion through
`double` and the draws `(0, 19/20)`. -/
theorem first_test_succeeds_when_unmutated_witness :
    ieeeViaDouble 0x3F800000 = 0x3F800000 ∧
    ∃ nextP rng1,
      nextPopulation ieeeEnv ieeeViaDouble [0x3F800000, 0x3F800000, 0x3F800000]
          (constRng 0 (19 / 20)) = Except.ok (nextP, rng1) ∧
      nextP.length = 3 ∧
      (∀ s ∈ nextP, s = 0x3F800000 ∨ ∃ r, r ≤ 31 ∧ s = mutateAt r 0x3F800000) ∧
      (0x3F800000 ∈ nextP →
        loopContinues 1 (1 / 2) nextP = false ∧
        ∀ fuel, mainLoop ieeeEnv ieeeViaDouble 1 (1 / 2) (fuel + 1) 0
          [0x3F800000, 0x3F800000, 0x3F800000] (constRng 0 (19 / 20)) = Except.ok (1, nextP)) ∧
      ((∀ n, ¬ (constRng 0 (19 / 20) n).r < MUTATION_CHANCE) →
        nextP = [0x3F800000, 0x3F800000, 0x3F800000]) :=
  ⟨by decide,
    first_test_succeeds_when_unmutated ieeeEnv ieeeViaDouble (constRng 0 (19 / 20))
      (by decide)⟩


/-- C13 (as stated, refuted): the population is the single signalling NaN `0x7F800001`, which
is both the pool member `c` and the second parent `o`. The crossover draw and the two
mutation draws are `19/20`, the coin draw is `0`: no operator is applied and the first
member of the pair survives. The loop variable `double ch` has turned it into the quiet
NaN `0x7FC00001`: the pair at the coin is not `(c, o)` and the survivor is not bit-for-bit
`c`. -/
theorem quieted_nan_survives :
    isSignalingNaN 0x7F800001 = true ∧
    ¬ (spikeRng 0 (19 / 20) 4 0 1).r < CROSSING_CHANCE ∧
    ¬ (spikeRng 0 (19 / 20) 4 0 2).r < MUTATION_CHANCE ∧
    ¬ (spikeRng 0 (19 / 20) 4 0 3).r < MUTATION_CHANCE ∧
    (spikeRng 0 (19 / 20) 4 0 4).r < 1 / 2 ∧
    (∃ rng7, pairAtCoin ieeeViaDouble [0x7F800001] 0x7F800001 (spikeRng 0 (19 / 20) 4 0) =
      Except.ok ((0x7FC00001, 0x7F800001), rng7)) ∧
    (∃ rng8, reproduce ieeeViaDouble [0x7F800001] 0x7F800001 (spikeRng 0 (19 / 20) 4 0) =
      Except.ok (0x7FC00001, rng8)) ∧
    (0x7FC00001 : Nat) ≠ 0x7F800001 := by
  have hcross : ¬ (spikeRng 0 (19 / 20) 4 0 1).r < CROSSING_CHANCE := by
    norm_num [spikeRng, CROSSING_CHANCE]
  have hmutA : ¬ (spikeRng 0 (19 / 20) 4 0 2).r < MUTATION_CHANCE := by
    norm_num [spikeRng, MUTATION_CHANCE]
  have hmutB : ¬ (spikeRng 0 (19 / 20) 4 0 3).r < MUTATION_CHANCE := by
    norm_num [spikeRng, MUTATION_CHANCE]
  have hcoin : (spikeRng 0 (19 / 20) 4 0 4).r < 1 / 2 := by
    norm_num [spikeRng]
  have hq : ieeeViaDouble 0x7F800001 = 0x7FC00001 := by decide
  obtain ⟨hpair, hrep⟩ := reproduce_plain ieeeViaDouble [0x7F800001] 0x7F800001 0x7F800001
    (spikeRng 0 (19 / 20) 4 0) rfl hcross hmutA hmutB
  rw [if_pos hcoin, hq] at hrep
  rw [hq] at hpair
  exact ⟨by decide, hcross, hmutA, hmutB, hcoin, ⟨_, hpair⟩, ⟨_, hrep⟩, by decide⟩


/-- C13 (amended): in one iteration of step #3 with pool member `c` and second parent `o`
(read at the index of the first draw), if the crossover draw (second draw) is not below
`CROSSING_CHANCE` and the two mutation draws (third and fourth) are not below
`MUTATION_CHANCE`, then the pair at the coin is `(c1, o)`, where `c1` is `c` after the
conversion `float → double → float` of the loop variable `double ch`, and the survivor is
`c1` when the coin (fifth draw) is below `1/2` and bit-for-bit `o` otherwise. `c1` is
bit-for-bit `c` whenever `c` is not a signalling NaN. -/
theorem reproduce_without_operators (p : Population) (c o : Nat) (rng : Rng)
    (hother : vectorAt p (randomUIntDist 0 (usub p.length 1) rng).1 = Except.ok o)
    (hcross : ¬ (rng 1).r < CROSSING_CHANCE)
    (hmutA : ¬ (rng 2).r < MUTATION_CHANCE) (hmutB : ¬ (rng 3).r < MUTATION_CHANCE) :
    (∃ rng7, pairAtCoin ieeeViaDouble p c rng = Except.ok ((ieeeViaDouble c, o), rng7)) ∧
    (∃ rng8, reproduce ieeeViaDouble p c rng =
      Except.ok (if (rng 4).r < 1 / 2 then ieeeViaDouble c else o, rng8)) ∧
    (isSignalingNaN c = false → ieeeViaDouble c = c) := by
  obtain ⟨hpair, hrep⟩ := reproduce_plain ieeeViaDouble p c o rng hother hcross hmutA hmutB
  exact ⟨⟨_, hpair⟩, ⟨_, hrep⟩, ieeeViaDouble_of_not_signaling c⟩


/-- C13 (witness of the amended claim): the population `{5.5, 20.0}`, pool member `5.5`,
every draw `(1, 19/20)`. -/
theorem reproduce_without_operators_witness :
    vectorAt ([0x40B00000, 0x41A00000] : Population)
      (randomUIntDist 0 (usub ([0x40B00000, 0x41A00000] : Population).length 1)
        (constRng 1 (19 / 20))).1 = Except.ok 0x41A00000 ∧
    ¬ (constRng 1 (19 / 20) 1).r < CROSSING_CHANCE ∧
    ¬ (constRng 1 (19 / 20) 2).r < MUTATION_CHANCE ∧
    ¬ (constRng 1 (19 / 20) 3).r < MUTATION_CHANCE ∧
    ((∃ rng7,
      pairAtCoin ieeeViaDouble [0x40B00000, 0x41A00000] 0x40B00000 (constRng 1 (19 / 20)) =
        Except.ok ((ieeeViaDouble 0x40B00000, 0x41A00000), rng7)) ∧
    (∃ rng8,
      reproduce ieeeViaDouble [0x40B00000, 0x41A00000] 0x40B00000 (constRng 1 (19 / 20)) =
        Except.ok (if (constRng 1 (19 / 20) 4).r < 1 / 2 then ieeeViaDouble 0x40B00000
          else 0x41A00000, rng8)) ∧
    (isSignalingNaN 0x40B00000 = false → ieeeViaDouble 0x40B00000 = 0x40B00000)) :=
  ⟨rfl, by norm_num [constRng, CROSSING_CHANCE], by norm_num [constRng, MUTATION_CHANCE],
    by norm_num [constRng, MUTATION_CHANCE],
    reproduce_without_operators [0x40B00000, 0x41A00000] 0x40B00000 0x41A00000
      (constRng 1 (19 / 20)) rfl (by norm_num [constRng, CROSSING_CHANCE])
      (by norm_num [constRng, MUTATION_CHANCE]) (by norm_num [constRng, MUTATION_CHANCE])⟩


/-- C14: for a non-empty population of `N` genomes, any sequence of `N` weights (finite or
not, of any sign), any spin and any rounding of the float arithmetic, the index
`winner - 1` read by the roulette step lies in `[0, N - 1]`; the lookup succeeds and yields
a genome of the population, every mating pool is made of genomes of the population, and no
`vector::at` of `nextPopulation` fails. -/
theorem roulette_index_in_range (env : FloatEnv) (p : Population) (dist : List FloatVal)
    (spin : ℚ) (hne : p ≠ []) (hd : dist.length = p.length) (hlt : p.length < 2 ^ 32) :
    usub (spinWheel env dist spin) 1 < p.length ∧
    (∃ g, vectorAt p (usub (spinWheel env dist spin) 1) = Except.ok g ∧ g ∈ p) ∧
    (∀ n rng, ∃ pool rng1, selectParents env p dist n rng = Except.ok (pool, rng1) ∧
      pool.length = n ∧ ∀ x ∈ pool, x ∈ p) ∧
    (∀ env1 viaDouble rng,
      nextPopulation env1 viaDouble p rng ≠ Except.error Fault.outOfRange) := by
  have hdne : dist ≠ [] := by
    intro h0
    rw [h0] at hd
    exact hne (List.length_eq_zero.mp hd.symm)
  obtain ⟨hw1, hw2⟩ := spinWheel_bounds env dist spin hdne
  have hidx : usub (spinWheel env dist spin) 1 < p.length := by
    rw [usub_one _ hw1 (by omega)]
    omega
  exact ⟨hidx, ⟨p.get ⟨_, hidx⟩, vectorAt_ok p _ hidx, List.get_mem _ _ _⟩,
    fun n rng => selectParents_ok env p dist hd hne hlt n rng,
    fun env1 viaDouble rng => nextPopulation_ne_outOfRange env1 viaDouble p rng⟩


/-- C14 (witness): binary32 arithmetic and the population `{5.5, 5.5}` with the weights NaN and
minus infinity. -/
theorem roulette_index_in_range_witness :
    ([0x40B00000, 0x40B00000] : Population) ≠ [] ∧
    [FloatVal.nan, FloatVal.ninf].length = ([0x40B00000, 0x40B00000] : Population).length ∧
    ([0x40B00000, 0x40B00000] : Population).length < 2 ^ 32 ∧
    (usub (spinWheel ieeeEnv [FloatVal.nan, FloatVal.ninf] (1 / 2)) 1 <
      ([0x40B00000, 0x40B00000] : Population).length ∧
    (∃ g, vectorAt ([0x40B00000, 0x40B00000] : Population)
        (usub (spinWheel ieeeEnv [FloatVal.nan, FloatVal.ninf] (1 / 2)) 1) = Except.ok g ∧
      g ∈ ([0x40B00000, 0x40B00000] : Population)) ∧
    (∀ n rng, ∃ pool rng1,
      selectParents ieeeEnv [0x40B00000, 0x40B00000] [FloatVal.nan, FloatVal.ninf] n rng =
        Except.ok (pool, rng1) ∧
      pool.length = n ∧ ∀ x ∈ pool, x ∈ ([0x40B00000, 0x40B00000] : Population)) ∧
    (∀ env1 viaDouble rng,
      nextPopulation env1 viaDouble [0x40B00000, 0x40B00000] rng ≠
        Except.error Fault.outOfRange)) :=
  ⟨by simp, rfl, by decide,
    roulette_index_in_range ieeeEnv [0x40B00000, 0x40B00000] [FloatVal.nan, FloatVal.ninf]
      (1 / 2) (by simp) rfl (by decide)⟩


/-- C15: with drawn breakpoint 0 the mask of `cross` is all zero and the 32-bit parents come
back exchanged: `childA = b` and `childB = a`. -/
theorem cross_breakpoint_zero_exchanges (a b : Nat) (rng : Rng) (ha : a < 2 ^ 32)
    (hb : b < 2 ^ 32) (hdraw : (randomUIntDist 0 (FLOAT_SIZE - 1) rng).1 = 0) :
    generateCrossMask (randomUIntDist 0 (FLOAT_SIZE - 1) rng).1 = 0 ∧
    (cross (a, b) rng).1.1 = b ∧ (cross (a, b) rng).1.2 = a := by
  rw [cross_fst, hdraw, crossAt_zero a b ha hb]
  exact ⟨rfl, rfl, rfl⟩

/-- C15 (witness): breakpoint 0 on the patterns of `1.0` and `2.0`. -/
theorem cross_breakpoint_zero_exchanges_witness :
    0x3F800000 < 2 ^ 32 ∧ 0x40000000 < 2 ^ 32 ∧
    (randomUIntDist 0 (FLOAT_SIZE - 1) (constRng 0 0)).1 = 0 ∧
    (generateCrossMask (randomUIntDist 0 (FLOAT_SIZE - 1) (constRng 0 0)).1 = 0 ∧
    (cross (0x3F800000, 0x40000000) (constRng 0 0)).1.1 = 0x40000000 ∧
    (cross (0x3F800000, 0x40000000) (constRng 0 0)).1.2 = 0x3F800000) :=
  ⟨by decide, by decide, rfl,
    cross_breakpoint_zero_exchanges 0x3F800000 0x40000000 (constRng 0 0) (by decide) (by decide)
      rfl⟩

/-- C16 (as stated, refuted): the population is the single signalling NaN `0x7F800001` and
every draw is `(10, 0)`. Under every rounding the loop variable `double ch` turns the pool
member into the quiet NaN `0x7FC00001`, the crossing at breakpoint 10 keeps its bit 22 and
the mutation flips bit 21: the result is `{0x7FE00001}`. The only genomes `x`, `y` of the
previous population are `0x7F800001`, every mix of which is `0x7F800001`, at Hamming
distance 2 from the survivor. -/
theorem mutated_quieted_nan_far_from_mixes :
    (∀ env : FloatEnv, nextPopulation env ieeeViaDouble [0x7F800001] (constRng 10 0) =
      Except.ok ([0x7FE00001], constRng 10 0)) ∧
    (∀ x ∈ ([0x7F800001] : Population), ∀ y ∈ ([0x7F800001] : Population), ∀ k, k ≤ 31 →
      hammingDistance 0x7FE00001
        ((x &&& generateCrossMask k) ||| (y &&& unot (generateCrossMask k))) = 2) := by
  refine ⟨nextPopulation_signalling, ?_⟩
  intro x hx y hy k hk
  have hx1 : x = 0x7F800001 := by simpa using hx
  have hy1 : y = 0x7F800001 := by simpa using hy
  rw [hx1, hy1, mix_self 0x7F800001 k (by decide) hk]
  exact hammingDistance_quieted_flipped


/-- C16 (amended): for a non-empty population of 32-bit patterns of `uint` size, every
sequence of draws and every rounding of the float arithmetic, `nextPopulation` returns a
population each genome `s` of which is a 32-bit pattern within Hamming distance 1 of
`(x AND m) OR (y AND NOT m)`, with `m = generateCrossMask k` and `k` in `[0, 31]`, for some
`x`, `y` each of which is a genome of the previous population or the conversion
`float → double → float` of one; when the previous population holds no signalling NaN,
`x` and `y` are genomes of the previous population. -/
theorem survivors_near_mix (env : FloatEnv) (p : Population) (rng : Rng)
    (hne : p ≠ []) (hlt : p.length < 2 ^ 32) (hbits : ∀ g ∈ p, g < 2 ^ 32) :
    ∃ nextP rng1, nextPopulation env ieeeViaDouble p rng = Except.ok (nextP, rng1) ∧
      ∀ s ∈ nextP, s < 2 ^ 32 ∧
        (∃ x, x ∈ p.map ieeeViaDouble ++ p ∧ ∃ y, y ∈ p.map ieeeViaDouble ++ p ∧
          ∃ k, k ≤ 31 ∧
            hammingDistance s
              ((x &&& generateCrossMask k) ||| (y &&& unot (generateCrossMask k))) ≤ 1) ∧
        ((∀ g ∈ p, isSignalingNaN g = false) →
          ∃ x, x ∈ p ∧ ∃ y, y ∈ p ∧ ∃ k, k ≤ 31 ∧
            hammingDistance s
              ((x &&& generateCrossMask k) ||| (y &&& unot (generateCrossMask k))) ≤ 1) := by
  obtain ⟨nextP, rng1, hok, _, hall⟩ := nextPopulation_spec env ieeeViaDouble p rng hne hlt
  refine ⟨nextP, rng1, hok, ?_⟩
  intro s hsmem
  obtain ⟨c, hc, o, ho, k, hk, base, hbase, hsb, _⟩ := hall s hsmem
  obtain ⟨hs, x, hx, y, hy, hd⟩ := near_pair_member ieeeViaDouble c o k base s
    (ieeeViaDouble_lt c (hbits c hc)) (hbits o ho) hk hbase hsb
  have hconv : ∀ z, z ∈ [ieeeViaDouble c, o] → z ∈ p.map ieeeViaDouble ++ p := by
    intro z hz
    simp only [List.mem_cons, List.mem_singleton, List.not_mem_nil, or_false] at hz
    rcases hz with h | h
    · exact List.mem_append_left _ (h ▸ List.mem_map_of_mem ieeeViaDouble hc)
    · exact List.mem_append_right _ (h ▸ ho)
  refine ⟨hs, ⟨x, hconv x hx, y, hconv y hy, k, hk, hd⟩, ?_⟩
  intro hquiet
  have hplain : ∀ z, z ∈ [ieeeViaDouble c, o] → z ∈ p := by
    intro z hz
    rw [ieeeViaDouble_of_not_signaling c (hquiet c hc)] at hz
    simp only [List.mem_cons, List.mem_singleton, List.not_mem_nil, or_false] at hz
    rcases hz with h | h
    · exact h ▸ hc
    · exact h ▸ ho
  exact ⟨x, hplain x hx, y, hplain y hy, k, hk, hd⟩


/-- C16 (witness of the amended claim): binary32 arithmetic and the population made of `5.5`
and the signalling NaN `0x7F800001`. -/
theorem survivors_near_mix_witness :
    ([0x40B00000, 0x7F800001] : Population) ≠ [] ∧
    ([0x40B00000, 0x7F800001] : Population).length < 2 ^ 32 ∧
    (∀ g ∈ ([0x40B00000, 0x7F800001] : Population), g < 2 ^ 32) ∧
    ∃ nextP rng1,
      nextPopulation ieeeEnv ieeeViaDouble [0x40B00000, 0x7F800001] (constRng 0 0) =
        Except.ok (nextP, rng1) ∧
      ∀ s ∈ nextP, s < 2 ^ 32 ∧
        (∃ x, x ∈ ([0x40B00000, 0x7F800001] : Population).map ieeeViaDouble ++
              [0x40B00000, 0x7F800001] ∧
          ∃ y, y ∈ ([0x40B00000, 0x7F800001] : Population).map ieeeViaDouble ++
              [0x40B00000, 0x7F800001] ∧
          ∃ k, k ≤ 31 ∧
            hammingDistance s
              ((x &&& generateCrossMask k) ||| (y &&& unot (generateCrossMask k))) ≤ 1) ∧
        ((∀ g ∈ ([0x40B00000, 0x7F800001] : Population), isSignalingNaN g = false) →
          ∃ x, x ∈ ([0x40B00000, 0x7F800001] : Population) ∧
            ∃ y, y ∈ ([0x40B00000, 0x7F800001] : Population) ∧ ∃ k, k ≤ 31 ∧
              hammingDistance s
                ((x &&& generateCrossMask k) ||| (y &&& unot (generateCrossMask k))) ≤ 1) :=
  ⟨by simp, by decide, by decide,
    survivors_near_mix ieeeEnv [0x40B00000, 0x7F800001] (constRng 0 0) (by simp) (by decide)
      (by decide)⟩


/-- C17: crossing twice at the same breakpoint `k` gives back the 32-bit pair `(a, b)`:
`cross` applied to the result of `cross` on `(a, b)`, both with drawn breakpoint `k`. -/
theorem cross_involutive (a b k : Nat) (rng : Rng) (ha : a < 2 ^ 32) (hb : b < 2 ^ 32)
    (hfirst : (randomUIntDist 0 (FLOAT_SIZE - 1) rng).1 = k)
    (hsecond : (randomUIntDist 0 (FLOAT_SIZE - 1) (cross (a, b) rng).2).1 = k) :
    (cross (cross (a, b) rng).1 (cross (a, b) rng).2).1 = (a, b) := by
  have hk : k ≤ 31 := hfirst ▸ draw_le rng
  rw [cross_fst, hsecond, cross_fst, hfirst]
  exact crossAt_involutive a b k ha hb hk

/-- C17 (witness): breakpoint 7, twice, on the patterns of `5.5` and `20.0`. -/
theorem cross_involutive_witness :
    0x40B00000 < 2 ^ 32 ∧ 0x41A00000 < 2 ^ 32 ∧
    (randomUIntDist 0 (FLOAT_SIZE - 1) (constRng 7 0)).1 = 7 ∧
    (randomUIntDist 0 (FLOAT_SIZE - 1) (cross (0x40B00000, 0x41A00000) (constRng 7 0)).2).1 = 7 ∧
    (cross (cross (0x40B00000, 0x41A00000) (constRng 7 0)).1
      (cross (0x40B00000, 0x41A00000) (constRng 7 0)).2).1 = (0x40B00000, 0x41A00000) :=
  ⟨by decide, by decide, rfl, rfl,
    cross_involutive 0x40B00000 0x41A00000 7 (constRng 7 0) (by decide) (by decide) rfl rfl⟩

end GeneticAlgorithm
